import Mathlib

/-!
# smon: sampling engine, process ranking and scroll viewport

A shallow embedding of `src/main.c` (a terminal system monitor for macOS).

Conventions of the embedding
* `natural_t` is a 32-bit unsigned integer: a `Nat` below `2 ^ 32`, every
  addition and subtraction reduced modulo `2 ^ 32`.
* `unsigned long long` is a `Nat` below `2 ^ 64`, reduced modulo `2 ^ 64`.
* `int` values (scroll offsets, process counts) are `Int`; they stay far
  away from the 32-bit range in every run.
* `double` values are the rationals (`ℚ`) that a 53-bit significand can
  hold: every conversion and every operation yields the exact result rounded
  to the nearest such value, ties to the even significand (`to_double`).  The
  exponent is not limited; every value this program computes lies far inside
  the normal range of a `double`, where no overflow or subnormal occurs.
* The static variables of the C file are the fields of `Globals`; what the
  operating system answers during one call of `get_system_stats` is a
  `World` value.
-/

namespace Smon

/-! ## Machine integers -/

/-- Number of values of a `natural_t` (32-bit unsigned). -/
def NATURAL_MOD : Nat := 2 ^ 32

/-- Number of values of an `unsigned long long`. -/
def ULL_MOD : Nat := 2 ^ 64

/-- Addition of two `natural_t` values. -/
def add32 (a b : Nat) : Nat := (a + b) % NATURAL_MOD

/-- Subtraction of two `natural_t` values (wraps below zero). -/
def sub32 (a b : Nat) : Nat := (a + NATURAL_MOD - b) % NATURAL_MOD

/-- Subtraction of two `unsigned long long` values (wraps below zero). -/
def sub64 (a b : Nat) : Nat := (a + ULL_MOD - b) % ULL_MOD

/-- A C `for (i = 0; i < n; i++) s = body(i, s);` loop. -/
def forLoop {σ : Type} (n : Nat) (body : Nat → σ → σ) (s : σ) : σ :=
  (List.range n).foldl (fun acc i => body i acc) s

/-! ## Double precision -/

/-- Rounding of a rational to the nearest integer, a tie going to the even
one. -/
def round_half_even (x : ℚ) : ℤ :=
  if x - ⌊x⌋ < 1 / 2 then ⌊x⌋
  else if 1 / 2 < x - ⌊x⌋ then ⌊x⌋ + 1
  else if ⌊x⌋ % 2 = 0 then ⌊x⌋ else ⌊x⌋ + 1

/-- Rounding of an exact value to `double`: with `2 ^ e <= |x| < 2 ^ (e + 1)`
the result is the multiple of `2 ^ (e - 52)` nearest to `x`, ties to even. -/
def to_double (x : ℚ) : ℚ :=
  if x = 0 then 0
  else round_half_even (x / 2 ^ (Int.log 2 |x| - 52)) * 2 ^ (Int.log 2 |x| - 52)

/-- The `double` division `x / y`; the program never divides by 0 (line 233
is behind `total_diff != 0`, line 238 runs only for `num_cores > 0`, line 321
divides by a constant). -/
def double_div (x y : ℚ) : ℚ := to_double (x / y)

/-- The `double` multiplication `x * y`. -/
def double_mul (x y : ℚ) : ℚ := to_double (x * y)

/-! ## Data model -/

/-- The array `cpu_ticks[CPU_STATE_MAX]` of `host_cpu_load_info`; on macOS
`CPU_STATE_USER = 0`, `CPU_STATE_SYSTEM = 1`, `CPU_STATE_IDLE = 2`,
`CPU_STATE_NICE = 3` and `CPU_STATE_MAX = 4`. -/
structure CpuTicks where
  user : Nat
  system : Nat
  idle : Nat
  nice : Nat
  deriving DecidableEq, Repr

/-- The buckets in index order `0 .. CPU_STATE_MAX - 1`. -/
def CpuTicks.toList (t : CpuTicks) : List Nat := [t.user, t.system, t.idle, t.nice]

/-- Every bucket is a valid `natural_t`. -/
@[reducible] def CpuTicks.WF (t : CpuTicks) : Prop :=
  t.user < NATURAL_MOD ∧ t.system < NATURAL_MOD ∧ t.idle < NATURAL_MOD ∧ t.nice < NATURAL_MOD

/-- Bucket-wise `≤`: no counter of `b` is below the same counter of `a`. -/
@[reducible] def CpuTicks.le (a b : CpuTicks) : Prop :=
  a.user ≤ b.user ∧ a.system ≤ b.system ∧ a.idle ≤ b.idle ∧ a.nice ≤ b.nice

/-- Sum of the true (unwrapped) per-bucket increases from `a` to `b`. -/
def CpuTicks.deltaSum (a b : CpuTicks) : Nat :=
  (b.user - a.user) + (b.system - a.system) + (b.idle - a.idle) + (b.nice - a.nice)

/-- The difference `cur - prev` of two unsigned counters with `modulus`
values as C computes it: the true increase when the counter did not go down,
the wrapped value otherwise. -/
def wrapped_delta (modulus cur prev : Nat) : Nat :=
  if prev ≤ cur then cur - prev else modulus - (prev - cur)

/-- The fields of `struct kinfo_proc` that the program reads. -/
structure KinfoProc where
  p_pid : Int
  p_comm : List Char
  deriving DecidableEq, Repr

/-- The fields of `struct proc_taskinfo` that the program reads. -/
structure TaskInfo where
  pti_total_user : Nat
  pti_resident_size : Nat
  deriving DecidableEq, Repr

/-- One entry of the process table together with what `proc_pidinfo`
answers for it: `none` stands for a return value `<= 0`. -/
structure RawProc where
  kp : KinfoProc
  pidinfo : Option TaskInfo
  deriving DecidableEq, Repr

/-- An element of the local array `proc_list[256]`. -/
structure ProcListEntry where
  proc : KinfoProc
  cpu_percent : ℚ
  mem_kb : Nat
  deriving DecidableEq, Repr

/-- An element of `stats.processes[20]`. -/
structure ProcessEntry where
  pid : Int
  name : List Char
  cpu_percent : ℚ
  mem_kb : Nat
  deriving DecidableEq, Repr

/-- The fields of `system_stats_t` that the CPU, process, network and disk
samplers write.  `processes` holds the first `num_processes` slots of the
array. -/
structure Stats where
  cpu_total : ℚ
  cpu_cores : List ℚ
  num_cores : Nat
  processes : List ProcessEntry
  net_rx_bytes : Nat
  net_tx_bytes : Nat
  disk_reads : Nat
  disk_writes : Nat
  deriving DecidableEq, Repr

/-- The field `num_processes`. -/
def Stats.num_processes (s : Stats) : Int := s.processes.length

/-- The initializer `system_stats_t stats = {0}`. -/
def Stats.zero : Stats :=
  { cpu_total := 0, cpu_cores := [], num_cores := 0, processes := [],
    net_rx_bytes := 0, net_tx_bytes := 0, disk_reads := 0, disk_writes := 0 }

/-- The static variables of the file, `fake_counter` of
`get_network_stats` included. -/
structure Globals where
  prev_net_rx : Nat
  prev_net_tx : Nat
  prev_disk_reads : Nat
  prev_disk_writes : Nat
  prev_cpu_ticks : CpuTicks
  first_cpu_measurement : Bool
  fake_counter : Nat
  deriving DecidableEq, Repr

/-- The four cumulative network and disk counters are valid
`unsigned long long` values. -/
@[reducible] def Stats.countersWF (s : Stats) : Prop :=
  s.net_rx_bytes < ULL_MOD ∧ s.net_tx_bytes < ULL_MOD ∧
    s.disk_reads < ULL_MOD ∧ s.disk_writes < ULL_MOD

/-- The four network and disk baselines are valid `unsigned long long`
values. -/
@[reducible] def Globals.countersWF (g : Globals) : Prop :=
  g.prev_net_rx < ULL_MOD ∧ g.prev_net_tx < ULL_MOD ∧
    g.prev_disk_reads < ULL_MOD ∧ g.prev_disk_writes < ULL_MOD

/-- The static initializers. -/
def Globals.init : Globals :=
  { prev_net_rx := 0, prev_net_tx := 0, prev_disk_reads := 0, prev_disk_writes := 0,
    prev_cpu_ticks := ⟨0, 0, 0, 0⟩, first_cpu_measurement := true, fake_counter := 0 }

/-- The static variables of a run whose latest CPU baseline is `prev`
(`first_cpu_measurement` is already false), everything else as initialized. -/
def Globals.withBaseline (prev : CpuTicks) : Globals :=
  { Globals.init with prev_cpu_ticks := prev, first_cpu_measurement := false }

/-- What the operating system answers during one `get_system_stats`:
`cpu_load` is the result of `host_statistics` (`none` when it does not return
`KERN_SUCCESS`), `ncpu` the value of `hw.ncpu`, `procs` the process table
(`none` when a `sysctl` or the `malloc` fails). -/
structure World where
  cpu_load : Option CpuTicks
  ncpu : Nat
  procs : Option (List RawProc)
  deriving DecidableEq, Repr

/-! ## `get_cpu_stats` -/

/-- The loop of lines 213-216 for one of the two arrays. -/
def total_ticks (t : CpuTicks) : Nat := t.toList.foldl add32 0

/-- Lines 230-232: the wrapped sum of the user, system and nice deltas. -/
def active_ticks (cur prev : CpuTicks) : Nat :=
  add32 (add32 (sub32 cur.user prev.user) (sub32 cur.system prev.system))
    (sub32 cur.nice prev.nice)

/-- The function `get_cpu_stats`. -/
def get_cpu_stats (g : Globals) (stats : Stats) (cpu_load : Option CpuTicks) (ncpu : Nat) :
    Globals × Stats :=
  match cpu_load with
  | none => (g, stats)
  | some current_ticks =>
    let stats := { stats with num_cores := ncpu }
    if g.first_cpu_measurement then
      ({ g with prev_cpu_ticks := current_ticks, first_cpu_measurement := false },
       { stats with cpu_cores := List.replicate ncpu 0, cpu_total := 0 })
    else
      let total_current := total_ticks current_ticks
      let total_prev := total_ticks g.prev_cpu_ticks
      let total_diff := sub32 total_current total_prev
      if total_diff = 0 then
        (g, { stats with cpu_cores := List.replicate ncpu 0, cpu_total := 0 })
      else
        let total_cpu_percent : ℚ :=
          if total_prev > 0 then
            double_mul
              (double_div (to_double (active_ticks current_ticks g.prev_cpu_ticks : ℚ))
                (to_double (total_diff : ℚ))) 100
          else 0
        ({ g with prev_cpu_ticks := current_ticks },
         { stats with
             cpu_cores :=
               List.replicate ncpu (double_div total_cpu_percent (to_double (ncpu : ℚ))),
             cpu_total := total_cpu_percent })

/-- Successive calls of `get_cpu_stats`, one for each successfully read
sample (ticks and core count) of the list. -/
def cpu_run (g : Globals) (stats : Stats) : List (CpuTicks × Nat) → Globals × Stats
  | [] => (g, stats)
  | sample :: rest =>
    cpu_run (get_cpu_stats g stats (some sample.1) sample.2).1
      (get_cpu_stats g stats (some sample.1) sample.2).2 rest

/-! ## `get_network_stats`, `get_disk_stats` -/

/-- The function `get_network_stats`. -/
def get_network_stats (g : Globals) (stats : Stats) : Globals × Stats :=
  let fake_counter := (g.fake_counter + 1024) % ULL_MOD
  ({ g with fake_counter := fake_counter },
   { stats with net_rx_bytes := fake_counter, net_tx_bytes := fake_counter / 2 })

/-- The function `get_disk_stats`. -/
def get_disk_stats (stats : Stats) : Stats :=
  { stats with disk_reads := 0, disk_writes := 0 }

/-! ## `get_process_stats` -/

/-- Lines 312-326: the `proc_list` element built for one table entry. -/
def make_entry (p : RawProc) : ProcListEntry :=
  match p.pidinfo with
  | some taskinfo =>
    { proc := p.kp,
      cpu_percent := double_div (to_double (taskinfo.pti_total_user : ℚ)) 1000000,
      mem_kb := taskinfo.pti_resident_size / 1024 }
  | none => { proc := p.kp, cpu_percent := 0, mem_kb := 0 }

/-- The collecting loop of lines 308-329; `proc_list` is the filled part of
the array, so `valid_procs` is its length. -/
def collect_procs : List RawProc → List ProcListEntry → List ProcListEntry
  | [], proc_list => proc_list
  | p :: rest, proc_list =>
    if proc_list.length < 256 then
      if p.kp.p_pid = 0 then collect_procs rest proc_list
      else collect_procs rest (proc_list ++ [make_entry p])
    else proc_list

/-- Lines 334-346: compare the slots `j` and `j + 1` and exchange them when
the first has the strictly smaller `cpu_percent`. -/
def swap_step (a : List ProcListEntry) (j : Nat) : List ProcListEntry :=
  match a[j]?, a[j + 1]? with
  | some x, some y =>
    if x.cpu_percent < y.cpu_percent then (a.set j y).set (j + 1) x else a
  | _, _ => a

/-- The bubble sort of lines 332-348 on the first `valid_procs` slots. -/
def sort_pass (proc_list : List ProcListEntry) : List ProcListEntry :=
  let valid_procs := proc_list.length
  forLoop (valid_procs - 1) (fun i a =>
    forLoop (valid_procs - i - 1) (fun j b => swap_step b j) a) proc_list

/-- Lines 353-357: the copy of one sorted element into `stats.processes`;
`strncpy` with bound 255 followed by the terminating zero keeps at most 255
characters of the name. -/
def fill_entry (e : ProcListEntry) : ProcessEntry :=
  { pid := e.proc.p_pid, name := e.proc.p_comm.take 255,
    cpu_percent := e.cpu_percent, mem_kb := e.mem_kb }

/-- The function `get_process_stats`. -/
def get_process_stats (stats : Stats) (procs : Option (List RawProc)) : Stats :=
  match procs with
  | none => stats
  | some table =>
    let proc_list := sort_pass (collect_procs table [])
    let num_processes := if proc_list.length < 20 then proc_list.length else 20
    { stats with processes := (proc_list.take num_processes).map fill_entry }

/-! ## `get_system_stats` and `main` -/

/-- The function `get_system_stats`; `get_memory_stats` and
`get_load_uptime` write only fields that are not part of `Stats`. -/
def get_system_stats (g : Globals) (stats : Stats) (w : World) : Globals × Stats :=
  let (g, stats) := get_cpu_stats g stats w.cpu_load w.ncpu
  let stats := get_process_stats stats w.procs
  let (g, stats) := get_network_stats g stats
  (g, get_disk_stats stats)

/-- The four rates of lines 136-139 (the same expressions are printed by
`draw_network` and `draw_disk`). -/
structure Rates where
  net_rx_rate : Nat
  net_tx_rate : Nat
  disk_read_rate : Nat
  disk_write_rate : Nat
  deriving DecidableEq, Repr

/-- Lines 136-139. -/
def compute_rates (g : Globals) (stats : Stats) : Rates :=
  { net_rx_rate := sub64 stats.net_rx_bytes g.prev_net_rx,
    net_tx_rate := sub64 stats.net_tx_bytes g.prev_net_tx,
    disk_read_rate := sub64 stats.disk_reads g.prev_disk_reads,
    disk_write_rate := sub64 stats.disk_writes g.prev_disk_writes }

/-- Lines 110-113 and 145-148: the baselines take the current counters. -/
def update_prev (g : Globals) (stats : Stats) : Globals :=
  { g with prev_net_rx := stats.net_rx_bytes, prev_net_tx := stats.net_tx_bytes,
           prev_disk_reads := stats.disk_reads, prev_disk_writes := stats.disk_writes }

/-- The value returned by `getch`, as far as `main` distinguishes it. -/
inductive Key where
  | KEY_UP
  | KEY_DOWN
  | KEY_PPAGE
  | KEY_NPAGE
  | quit
  | other
  deriving DecidableEq, Repr

/-- The local variables of `main` together with the static variables. -/
structure MainState where
  g : Globals
  stats : Stats
  process_scroll : Int
  max_process_scroll : Int
  deriving DecidableEq, Repr

/-- The `switch` of lines 117-130. -/
def handle_key (ch : Key) (process_scroll max_process_scroll : Int) : Int :=
  match ch with
  | Key.KEY_UP => if process_scroll > 0 then process_scroll - 1 else process_scroll
  | Key.KEY_DOWN =>
    if process_scroll < max_process_scroll then process_scroll + 1 else process_scroll
  | Key.KEY_PPAGE => if process_scroll > 5 then process_scroll - 5 else 0
  | Key.KEY_NPAGE =>
    if process_scroll + 5 < max_process_scroll then process_scroll + 5 else max_process_scroll
  | _ => process_scroll

/-- Lines 108-113 of `main`, started from the static variables `g`. -/
def main_startup (g : Globals) (w : World) : MainState :=
  let (g, stats) := get_system_stats g Stats.zero w
  { g := update_prev g stats, stats := stats, process_scroll := 0, max_process_scroll := 0 }

/-- One iteration of the `while` loop of `main` (lines 116-152) for a key
other than `q`; drawing does not change the state. -/
def loop_body (s : MainState) (ch : Key) (w : World) : MainState :=
  let process_scroll := handle_key ch s.process_scroll s.max_process_scroll
  let (g, stats) := get_system_stats s.g s.stats w
  let g := update_prev g stats
  let max_process_scroll := if stats.num_processes > 10 then stats.num_processes - 10 else 0
  let process_scroll :=
    if process_scroll > max_process_scroll then max_process_scroll else process_scroll
  { g := g, stats := stats, process_scroll := process_scroll,
    max_process_scroll := max_process_scroll }

/-- The states at the end of every iteration of the `while` loop, in
order; the loop ends at the first `q`. -/
def loop_trace : MainState → List (Key × World) → List MainState
  | _, [] => []
  | s, (ch, w) :: rest =>
    if ch = Key.quit then []
    else loop_body s ch w :: loop_trace (loop_body s ch w) rest

/-- The step sizes of the four scroll keys. -/
def key_step : Key → Int
  | Key.KEY_UP => -1
  | Key.KEY_DOWN => 1
  | Key.KEY_PPAGE => -5
  | Key.KEY_NPAGE => 5
  | _ => 0

/-! ## Definitions used to state and prove the properties -/

/-- One inner loop of the bubble sort in recursive form: `n` comparisons
with `c` the element in the slot under comparison and `rest` the slots after
it.  `inner_loop_eq_bubbleN` shows that this is what the indexed loop
computes. -/
def bubbleN : Nat → ProcListEntry → List ProcListEntry → List ProcListEntry
  | 0, c, rest => c :: rest
  | _ + 1, c, [] => [c]
  | n + 1, c, y :: rest =>
    if c.cpu_percent < y.cpu_percent then y :: bubbleN n c rest else c :: bubbleN n y rest

/-- The elements of `l` whose `cpu_percent` is `k`, in their order in `l`. -/
def with_cpu (k : ℚ) (l : List ProcListEntry) : List ProcListEntry :=
  l.filter (fun e => decide (e.cpu_percent = k))

/-- Non-increasing order of `cpu_percent`. -/
def cpu_desc (a b : ProcListEntry) : Prop := b.cpu_percent ≤ a.cpu_percent

instance : DecidableRel cpu_desc := fun a b =>
  inferInstanceAs (Decidable (b.cpu_percent ≤ a.cpu_percent))

instance : IsTotal ProcListEntry cpu_desc :=
  ⟨fun a b => le_total b.cpu_percent a.cpu_percent⟩

instance : IsTrans ProcListEntry cpu_desc :=
  ⟨fun _ _ _ hab hbc => le_trans hbc hab⟩

/-- The table entries that the collecting loop does not skip. -/
def nonzero_pid (table : List RawProc) : List RawProc :=
  table.filter (fun p => decide (p.kp.p_pid ≠ 0))

/-- A process table with 257 entries: pids 1 to 256 with no CPU time, then
pid 257 with 5000000 units of user time. -/
def table_257 : List RawProc :=
  (List.range 256).map (fun i => ⟨⟨(i : Int) + 1, ['i', 'd', 'l', 'e']⟩, some ⟨0, 0⟩⟩)
    ++ [⟨⟨257, ['b', 'u', 's', 'y']⟩, some ⟨5000000, 0⟩⟩]

/-- A process table with 12 entries, pids 1 to 12, whose resource queries
all fail. -/
def table_12 : List RawProc :=
  (List.range 12).map (fun i => ⟨⟨(i : Int) + 1, ['p']⟩, none⟩)

/-- A process table with two entries: pid 0, and pid 1 whose resource
query fails. -/
def table_pid0 : List RawProc :=
  [⟨⟨0, ['k', 'e', 'r', 'n', 'e', 'l', '_', 't', 'a', 's', 'k']⟩, some ⟨0, 0⟩⟩,
   ⟨⟨1, ['l', 'a', 'u', 'n', 'c', 'h', 'd']⟩, none⟩]

/-- A process table with three entries, the query of the second failing. -/
def table_3 : List RawProc :=
  [⟨⟨1, ['l', 'a', 'u', 'n', 'c', 'h', 'd']⟩, some ⟨2000000, 4096⟩⟩,
   ⟨⟨88, ['s', 'e', 'c', 'u', 'r', 'e', 'd']⟩, none⟩,
   ⟨⟨500, ['z', 's', 'h']⟩, some ⟨7000000, 10240⟩⟩]

/-! ## Facts about double rounding -/

theorem round_half_even_cases (x : ℚ) :
    round_half_even x = ⌊x⌋ ∨ (round_half_even x = ⌊x⌋ + 1 ∧ (1 : ℚ) / 2 ≤ x - ⌊x⌋) := by
  unfold round_half_even
  split_ifs with h1 h2 h3
  · exact Or.inl rfl
  · exact Or.inr ⟨rfl, le_of_lt h2⟩
  · exact Or.inl rfl
  · exact Or.inr ⟨rfl, not_lt.mp h1⟩

theorem round_half_even_intCast (n : ℤ) : round_half_even (n : ℚ) = n := by
  unfold round_half_even
  simp

theorem le_round_half_even {a : ℤ} {x : ℚ} (h : (a : ℚ) ≤ x) : a ≤ round_half_even x := by
  have hf : a ≤ ⌊x⌋ := Int.le_floor.mpr h
  rcases round_half_even_cases x with h1 | ⟨h1, _⟩ <;> omega

theorem round_half_even_le {b : ℤ} {x : ℚ} (h : x ≤ (b : ℚ)) : round_half_even x ≤ b := by
  rcases round_half_even_cases x with h1 | ⟨h1, h2⟩
  · rw [h1]
    exact_mod_cast (Int.floor_le x).trans h
  · rw [h1]
    have hlt : (⌊x⌋ : ℚ) < b := by linarith
    have : ⌊x⌋ < b := by exact_mod_cast hlt
    omega

theorem round_half_even_mono {x y : ℚ} (h : x ≤ y) : round_half_even x ≤ round_half_even y := by
  have hfl : ⌊x⌋ ≤ ⌊y⌋ := Int.floor_mono h
  rcases lt_or_eq_of_le hfl with hlt | heq
  · have h1 : round_half_even x ≤ ⌊x⌋ + 1 := by
      rcases round_half_even_cases x with h1 | ⟨h1, _⟩ <;> omega
    have h2 : ⌊y⌋ ≤ round_half_even y := by
      rcases round_half_even_cases y with h1 | ⟨h1, _⟩ <;> omega
    omega
  · unfold round_half_even
    rw [← heq]
    split_ifs <;> first | omega | (exfalso; linarith)

theorem round_half_even_sub_le (x : ℚ) : |(round_half_even x : ℚ) - x| ≤ 1 / 2 := by
  have h1 := Int.floor_le x
  have h2 := Int.lt_floor_add_one x
  rw [abs_le]
  unfold round_half_even
  split_ifs with a b c <;> push_cast <;> constructor <;> linarith

theorem round_half_even_eq_of_near {x : ℚ} {n : ℤ} (h : |x - n| < 1 / 2) :
    round_half_even x = n := by
  rw [abs_lt] at h
  have hx := round_half_even_sub_le x
  rw [abs_le] at hx
  have h1 : ((round_half_even x : ℤ) : ℚ) < n + 1 := by linarith
  have h2 : (n : ℚ) - 1 < round_half_even x := by linarith
  have h3 : round_half_even x < n + 1 := by exact_mod_cast h1
  have h4 : n - 1 < round_half_even x := by exact_mod_cast h2
  omega

theorem log2_spec {x : ℚ} (hx : 0 < x) :
    (2 : ℚ) ^ Int.log 2 x ≤ x ∧ x < (2 : ℚ) ^ (Int.log 2 x + 1) := by
  have h1 := Int.zpow_log_le_self (b := 2) (by norm_num) hx
  have h2 := Int.lt_zpow_succ_log_self (b := 2) (by norm_num) x
  simp only [Nat.cast_ofNat] at h1 h2
  exact ⟨h1, h2⟩

theorem log2_eq {x : ℚ} {e : ℤ} (hx : 0 < x) (h1 : (2 : ℚ) ^ e ≤ x) (h2 : x < (2 : ℚ) ^ (e + 1)) :
    Int.log 2 x = e := by
  have a1 : e ≤ Int.log 2 x := by
    apply (Int.zpow_le_iff_le_log (b := 2) (by norm_num) hx).mp
    simpa using h1
  have a2 : Int.log 2 x < e + 1 := by
    apply (Int.lt_zpow_iff_log_lt (b := 2) (by norm_num) hx).mp
    simpa using h2
  omega

theorem to_double_zero : to_double 0 = 0 := by simp [to_double]

theorem to_double_pos_eq {x : ℚ} (hx : 0 < x) :
    to_double x =
      round_half_even (x / 2 ^ (Int.log 2 x - 52)) * 2 ^ (Int.log 2 x - 52) := by
  unfold to_double
  rw [if_neg (ne_of_gt hx), abs_of_pos hx]

theorem quantum_pos (e : ℤ) : (0 : ℚ) < 2 ^ (e - 52) := zpow_pos (by norm_num) _

theorem quantum_mul (e : ℤ) : (2 : ℚ) ^ (52 : ℕ) * 2 ^ (e - 52) = 2 ^ e := by
  rw [← zpow_natCast, ← zpow_add₀ (by norm_num)]
  congr 1
  push_cast
  ring

theorem quantum_mul_succ (e : ℤ) : (2 : ℚ) ^ (53 : ℕ) * 2 ^ (e - 52) = 2 ^ (e + 1) := by
  rw [← zpow_natCast, ← zpow_add₀ (by norm_num)]
  congr 1
  push_cast
  ring

theorem scaled_bounds {x : ℚ} (hx : 0 < x) :
    (2 : ℚ) ^ (52 : ℕ) ≤ x / 2 ^ (Int.log 2 x - 52) ∧
      x / 2 ^ (Int.log 2 x - 52) < (2 : ℚ) ^ (53 : ℕ) := by
  obtain ⟨h1, h2⟩ := log2_spec hx
  have hq := quantum_pos (Int.log 2 x)
  constructor
  · rw [le_div_iff₀ hq, quantum_mul]; exact h1
  · rw [div_lt_iff₀ hq, quantum_mul_succ]; exact h2

theorem to_double_pos_bounds {x : ℚ} (hx : 0 < x) :
    (2 : ℚ) ^ Int.log 2 x ≤ to_double x ∧ to_double x ≤ (2 : ℚ) ^ (Int.log 2 x + 1) := by
  obtain ⟨h1, h2⟩ := scaled_bounds hx
  have hq := quantum_pos (Int.log 2 x)
  have a1 : ((2 ^ 52 : ℤ) : ℚ) ≤ x / 2 ^ (Int.log 2 x - 52) := by push_cast; exact h1
  have a2 : x / 2 ^ (Int.log 2 x - 52) ≤ ((2 ^ 53 : ℤ) : ℚ) := by push_cast; exact le_of_lt h2
  have b1 : ((2 ^ 52 : ℤ) : ℚ) ≤ round_half_even (x / 2 ^ (Int.log 2 x - 52)) := by
    exact_mod_cast le_round_half_even a1
  have b2 : (round_half_even (x / 2 ^ (Int.log 2 x - 52)) : ℚ) ≤ ((2 ^ 53 : ℤ) : ℚ) := by
    exact_mod_cast round_half_even_le a2
  rw [to_double_pos_eq hx, ← quantum_mul (Int.log 2 x), ← quantum_mul_succ (Int.log 2 x)]
  push_cast at b1 b2
  exact ⟨mul_le_mul_of_nonneg_right b1 (le_of_lt hq), mul_le_mul_of_nonneg_right b2 (le_of_lt hq)⟩

theorem to_double_pos {x : ℚ} (hx : 0 < x) : 0 < to_double x :=
  lt_of_lt_of_le (zpow_pos (by norm_num) _) (to_double_pos_bounds hx).1

theorem to_double_nonneg {x : ℚ} (hx : 0 ≤ x) : 0 ≤ to_double x := by
  rcases eq_or_lt_of_le hx with h | h
  · rw [← h, to_double_zero]
  · exact le_of_lt (to_double_pos h)

theorem to_double_mono {x y : ℚ} (hx : 0 ≤ x) (hxy : x ≤ y) : to_double x ≤ to_double y := by
  rcases eq_or_lt_of_le hx with h | h
  · rw [← h, to_double_zero]; exact to_double_nonneg (le_trans hx hxy)
  · have hy : 0 < y := lt_of_lt_of_le h hxy
    have hlog : Int.log 2 x ≤ Int.log 2 y := Int.log_mono_right h hxy
    rcases lt_or_eq_of_le hlog with hlt | heq
    · calc to_double x ≤ (2 : ℚ) ^ (Int.log 2 x + 1) := (to_double_pos_bounds h).2
        _ ≤ (2 : ℚ) ^ Int.log 2 y := zpow_le_zpow_right₀ (by norm_num) (by omega)
        _ ≤ to_double y := (to_double_pos_bounds hy).1
    · rw [to_double_pos_eq h, to_double_pos_eq hy, heq]
      have hq := quantum_pos (Int.log 2 y)
      have hdiv : x / 2 ^ (Int.log 2 y - 52) ≤ y / 2 ^ (Int.log 2 y - 52) :=
        div_le_div_of_nonneg_right hxy (le_of_lt hq)
      have := round_half_even_mono hdiv
      have hc : (round_half_even (x / 2 ^ (Int.log 2 y - 52)) : ℚ) ≤
          round_half_even (y / 2 ^ (Int.log 2 y - 52)) := by exact_mod_cast this
      exact mul_le_mul_of_nonneg_right hc (le_of_lt hq)

theorem to_double_eq_of {x : ℚ} (e n : ℤ) (h1 : (2 : ℚ) ^ e ≤ x) (h2 : x < (2 : ℚ) ^ (e + 1))
    (h3 : |x / 2 ^ (e - 52) - n| < 1 / 2) : to_double x = n * 2 ^ (e - 52) := by
  have hx : 0 < x := lt_of_lt_of_le (zpow_pos (by norm_num) _) h1
  rw [to_double_pos_eq hx, log2_eq hx h1 h2, round_half_even_eq_of_near h3]

theorem to_double_natCast (n : ℕ) (h : n < 2 ^ 53) : to_double (n : ℚ) = n := by
  rcases Nat.eq_zero_or_pos n with h0 | hpos
  · rw [h0]; simp [to_double_zero]
  · have hx : (0 : ℚ) < n := by exact_mod_cast hpos
    have hk : Nat.log 2 n < 53 := Nat.log_lt_of_lt_pow (by omega) h
    have hlog : Int.log 2 (n : ℚ) = (Nat.log 2 n : ℤ) := Int.log_natCast 2 n
    have hq : (2 : ℚ) ^ ((Nat.log 2 n : ℤ) - 52) * 2 ^ (52 - Nat.log 2 n) = 1 := by
      rw [← zpow_natCast, ← zpow_add₀ (by norm_num)]
      have : ((Nat.log 2 n : ℤ) - 52) + ((52 - Nat.log 2 n : ℕ) : ℤ) = 0 := by omega
      rw [this, zpow_zero]
    have hsc : (n : ℚ) / 2 ^ ((Nat.log 2 n : ℤ) - 52) = ((n * 2 ^ (52 - Nat.log 2 n) : ℕ) : ℤ) := by
      rw [div_eq_iff (ne_of_gt (quantum_pos _))]
      push_cast
      rw [mul_assoc, mul_comm ((2 : ℚ) ^ (52 - Nat.log 2 n)), hq, mul_one]
    rw [to_double_pos_eq hx, hlog, hsc, round_half_even_intCast]
    push_cast
    rw [mul_assoc, mul_comm ((2 : ℚ) ^ (52 - Nat.log 2 n)), hq, mul_one]

theorem to_double_error {x : ℚ} (hx : 0 ≤ x) : |to_double x - x| ≤ x / 2 ^ (53 : ℕ) := by
  rcases eq_or_lt_of_le hx with h | h
  · rw [← h, to_double_zero]; simp
  · have hq := quantum_pos (Int.log 2 x)
    have hr := round_half_even_sub_le (x / 2 ^ (Int.log 2 x - 52))
    have e1 : to_double x - x =
        ((round_half_even (x / 2 ^ (Int.log 2 x - 52)) : ℚ) - x / 2 ^ (Int.log 2 x - 52))
          * 2 ^ (Int.log 2 x - 52) := by
      rw [to_double_pos_eq h, sub_mul, div_mul_cancel₀ _ (ne_of_gt hq)]
    rw [e1, abs_mul, abs_of_pos hq]
    have h1 := (log2_spec h).1
    rw [← quantum_mul] at h1
    have h2 : (2 : ℚ) ^ (Int.log 2 x - 52) ≤ x / 2 ^ (52 : ℕ) := by
      rw [le_div_iff₀ (by positivity)]; linarith
    calc |(round_half_even (x / 2 ^ (Int.log 2 x - 52)) : ℚ) - x / 2 ^ (Int.log 2 x - 52)|
          * 2 ^ (Int.log 2 x - 52)
        ≤ 1 / 2 * 2 ^ (Int.log 2 x - 52) := mul_le_mul_of_nonneg_right hr (le_of_lt hq)
      _ ≤ 1 / 2 * (x / 2 ^ (52 : ℕ)) := by linarith
      _ = x / 2 ^ (53 : ℕ) := by ring

/-! ## Facts about the machine arithmetic -/

theorem forLoop_zero {σ : Type} (body : Nat → σ → σ) (s : σ) : forLoop 0 body s = s := rfl

theorem forLoop_succ {σ : Type} (n : Nat) (body : Nat → σ → σ) (s : σ) :
    forLoop (n + 1) body s = body n (forLoop n body s) := by
  simp [forLoop, List.range_succ, List.foldl_append]

theorem sub32_of_le {a b : Nat} (hb : b ≤ a) (ha : a < NATURAL_MOD) : sub32 a b = a - b := by
  simp only [sub32, NATURAL_MOD] at *
  omega

theorem sub32_of_lt {a b : Nat} (hab : a < b) (hb : b < NATURAL_MOD) :
    sub32 a b = NATURAL_MOD - (b - a) := by
  simp only [sub32, NATURAL_MOD] at *
  omega

theorem sub64_of_lt {a b : Nat} (hab : a < b) (hb : b < ULL_MOD) :
    sub64 a b = ULL_MOD - (b - a) := by
  simp only [sub64, ULL_MOD] at *
  omega

theorem sub64_self {a : Nat} : sub64 a a = 0 := by
  simp [sub64]

theorem total_ticks_eq (t : CpuTicks) :
    total_ticks t = (t.user + t.system + t.idle + t.nice) % NATURAL_MOD := by
  simp only [total_ticks, CpuTicks.toList, List.foldl, add32, NATURAL_MOD]
  omega

theorem total_diff_eq {cur prev : CpuTicks} (hle : prev.le cur) :
    sub32 (total_ticks cur) (total_ticks prev) = prev.deltaSum cur % NATURAL_MOD := by
  obtain ⟨h1, h2, h3, h4⟩ := hle
  simp only [total_ticks_eq, sub32, CpuTicks.deltaSum, NATURAL_MOD]
  omega

theorem active_ticks_eq {cur prev : CpuTicks} (hc : cur.WF) (hle : prev.le cur) :
    active_ticks cur prev =
      ((cur.user - prev.user) + (cur.system - prev.system) + (cur.nice - prev.nice))
        % NATURAL_MOD := by
  obtain ⟨h1, h2, h3, h4⟩ := hle
  obtain ⟨c1, c2, c3, c4⟩ := hc
  simp only [active_ticks, add32, sub32, NATURAL_MOD] at *
  omega

/-! ## CPU percentage -/

theorem active_ticks_lt (cur prev : CpuTicks) : active_ticks cur prev < NATURAL_MOD :=
  Nat.mod_lt _ (by decide)

theorem sub32_lt (a b : Nat) : sub32 a b < NATURAL_MOD :=
  Nat.mod_lt _ (by decide)

/-- The conversion of a `natural_t` to `double` is exact. -/
theorem to_double_natural {n : Nat} (h : n < NATURAL_MOD) : to_double (n : ℚ) = n :=
  to_double_natCast n (lt_trans h (by decide))

theorem to_double_one : to_double 1 = 1 := by
  exact_mod_cast to_double_natCast 1 (by norm_num)

theorem to_double_hundred : to_double 100 = 100 := by
  exact_mod_cast to_double_natCast 100 (by norm_num)

theorem get_cpu_stats_normal {g : Globals} (stats : Stats) {cur : CpuTicks} (ncpu : Nat)
    (hfirst : g.first_cpu_measurement = false)
    (hdiff : sub32 (total_ticks cur) (total_ticks g.prev_cpu_ticks) ≠ 0) :
    (get_cpu_stats g stats (some cur) ncpu).2.cpu_total =
      if total_ticks g.prev_cpu_ticks > 0 then
        double_mul (double_div (active_ticks cur g.prev_cpu_ticks : ℚ)
          (sub32 (total_ticks cur) (total_ticks g.prev_cpu_ticks) : ℚ)) 100
      else 0 := by
  simp [get_cpu_stats, hfirst, hdiff, to_double_natural (active_ticks_lt _ _),
    to_double_natural (sub32_lt _ _)]

theorem get_cpu_stats_zero_diff {g : Globals} (stats : Stats) {cur : CpuTicks} (ncpu : Nat)
    (hfirst : g.first_cpu_measurement = false)
    (hdiff : sub32 (total_ticks cur) (total_ticks g.prev_cpu_ticks) = 0) :
    (get_cpu_stats g stats (some cur) ncpu).1 = g := by
  simp [get_cpu_stats, hfirst, hdiff]

theorem get_cpu_stats_total_cases (g : Globals) (stats : Stats) (cur : CpuTicks) (ncpu : Nat) :
    (get_cpu_stats g stats (some cur) ncpu).2.cpu_total = 0 ∨
      (get_cpu_stats g stats (some cur) ncpu).2.cpu_total =
        double_mul (double_div (active_ticks cur g.prev_cpu_ticks : ℚ)
          (sub32 (total_ticks cur) (total_ticks g.prev_cpu_ticks) : ℚ)) 100 := by
  unfold get_cpu_stats
  dsimp only
  rw [to_double_natural (active_ticks_lt _ _), to_double_natural (sub32_lt _ _)]
  split_ifs <;> simp

/-- The percentage of line 233 lies in `[0, 100]` when the active ticks do
not exceed the total delta, rounding included. -/
theorem percent_in_range {a d : Nat} (h : a ≤ d) :
    0 ≤ double_mul (double_div (a : ℚ) (d : ℚ)) 100 ∧
      double_mul (double_div (a : ℚ) (d : ℚ)) 100 ≤ 100 := by
  have hy0 : (0 : ℚ) ≤ (a : ℚ) / (d : ℚ) := div_nonneg (Nat.cast_nonneg a) (Nat.cast_nonneg d)
  have hy1 : (a : ℚ) / (d : ℚ) ≤ 1 := by
    rcases Nat.eq_zero_or_pos d with h0 | hpos
    · rw [h0]; simp
    · have hd : (0 : ℚ) < (d : ℚ) := by exact_mod_cast hpos
      rw [div_le_one hd]
      exact_mod_cast h
  have hq0 : 0 ≤ double_div (a : ℚ) (d : ℚ) := to_double_nonneg hy0
  have hq1 : double_div (a : ℚ) (d : ℚ) ≤ 1 := by
    have := to_double_mono hy0 hy1
    rwa [to_double_one] at this
  have hz0 : 0 ≤ double_div (a : ℚ) (d : ℚ) * 100 := by linarith
  have hz1 : double_div (a : ℚ) (d : ℚ) * 100 ≤ 100 := by linarith
  refine ⟨to_double_nonneg hz0, ?_⟩
  have := to_double_mono hz0 hz1
  rwa [to_double_hundred] at this

/-- One call whose sample is nowhere below the stored baseline, with
increases over that baseline adding up to less than `2 ^ 32`, stores a
`cpu_total` in `[0, 100]`. -/
theorem cpu_total_in_range_of_baseline (g : Globals) (stats : Stats) (cur : CpuTicks)
    (ncpu : Nat) (hc : cur.WF) (hle : g.prev_cpu_ticks.le cur)
    (hsum : g.prev_cpu_ticks.deltaSum cur < NATURAL_MOD) :
    0 ≤ (get_cpu_stats g stats (some cur) ncpu).2.cpu_total ∧
      (get_cpu_stats g stats (some cur) ncpu).2.cpu_total ≤ 100 := by
  rcases get_cpu_stats_total_cases g stats cur ncpu with h | h
  · rw [h]; norm_num
  · rw [h, total_diff_eq hle, active_ticks_eq hc hle, Nat.mod_eq_of_lt hsum]
    apply percent_in_range
    have hact : (cur.user - g.prev_cpu_ticks.user) + (cur.system - g.prev_cpu_ticks.system)
        + (cur.nice - g.prev_cpu_ticks.nice) ≤ g.prev_cpu_ticks.deltaSum cur := by
      simp only [CpuTicks.deltaSum]; omega
    exact le_trans (Nat.mod_le _ _) hact

/-- After a call that is not the first, with a sample nowhere below the
baseline and increases adding up to less than `2 ^ 32`, the baseline is the
sample just read: either it was copied, or the total delta was 0 and the
sample equals the old baseline. -/
theorem get_cpu_stats_baseline_of_small_step (g : Globals) (stats : Stats) (cur : CpuTicks)
    (ncpu : Nat) (hfirst : g.first_cpu_measurement = false) (hle : g.prev_cpu_ticks.le cur)
    (hsum : g.prev_cpu_ticks.deltaSum cur < NATURAL_MOD) :
    (get_cpu_stats g stats (some cur) ncpu).1.first_cpu_measurement = false ∧
      (get_cpu_stats g stats (some cur) ncpu).1.prev_cpu_ticks = cur := by
  by_cases hd : sub32 (total_ticks cur) (total_ticks g.prev_cpu_ticks) = 0
  · rw [get_cpu_stats_zero_diff stats ncpu hfirst hd]
    refine ⟨hfirst, ?_⟩
    rw [total_diff_eq hle, Nat.mod_eq_of_lt hsum] at hd
    obtain ⟨h1, h2, h3, h4⟩ := hle
    simp only [CpuTicks.deltaSum] at hd
    cases hp : g.prev_cpu_ticks with
    | mk pu ps pi pn =>
      cases cur with
      | mk cu cs ci cn =>
        rw [hp] at h1 h2 h3 h4 hd
        simp only at h1 h2 h3 h4 hd
        simp only [CpuTicks.mk.injEq]
        omega
  · simp [get_cpu_stats, hfirst, hd]

theorem cpu_run_in_range (rest : List (CpuTicks × Nat)) :
    ∀ (g : Globals) (stats : Stats) (last : CpuTicks × Nat),
      g.first_cpu_measurement = false → g.prev_cpu_ticks = last.1 →
      (0 ≤ stats.cpu_total ∧ stats.cpu_total ≤ 100) →
      (∀ s ∈ rest, s.1.WF) →
      List.Chain (fun a b : CpuTicks × Nat => a.1.le b.1 ∧ a.1.deltaSum b.1 < NATURAL_MOD)
        last rest →
      0 ≤ (cpu_run g stats rest).2.cpu_total ∧ (cpu_run g stats rest).2.cpu_total ≤ 100 := by
  induction rest with
  | nil => intro g stats last _ _ hin _ _; exact hin
  | cons s rest ih =>
    intro g stats last hfirst hprev _ hwf hchain
    rw [List.chain_cons] at hchain
    obtain ⟨⟨hle, hsum⟩, htail⟩ := hchain
    rw [← hprev] at hle hsum
    obtain ⟨hf, hp⟩ := get_cpu_stats_baseline_of_small_step g stats s.1 s.2 hfirst hle hsum
    have hin := cpu_total_in_range_of_baseline g stats s.1 s.2
      (hwf s (List.mem_cons_self _ _)) hle hsum
    simp only [cpu_run]
    exact ih _ _ s hf hp hin (fun t ht => hwf t (List.mem_cons_of_mem _ ht)) htail

/-- C1 (as amended): in every run of successfully read samples that
starts with the first measurement, if every sample is bucket by bucket
greater than or equal to the one before it and the increases from each
sample to the next add up to less than `2 ^ 32`, the `cpu_total` computed for
the last sample of the run lies between 0 and 100. -/
theorem cpu_total_in_range (g : Globals) (stats : Stats) (first : CpuTicks × Nat)
    (rest : List (CpuTicks × Nat)) (hfirst : g.first_cpu_measurement = true)
    (hwf : ∀ s ∈ first :: rest, s.1.WF)
    (hchain : List.Chain
      (fun a b : CpuTicks × Nat => a.1.le b.1 ∧ a.1.deltaSum b.1 < NATURAL_MOD) first rest) :
    0 ≤ (cpu_run g stats (first :: rest)).2.cpu_total ∧
      (cpu_run g stats (first :: rest)).2.cpu_total ≤ 100 := by
  simp only [cpu_run]
  apply cpu_run_in_range rest _ _ first
  · simp [get_cpu_stats, hfirst]
  · simp [get_cpu_stats, hfirst]
  · simp [get_cpu_stats, hfirst]
  · exact fun s hs => hwf s (List.mem_cons_of_mem _ hs)
  · exact hchain

/-- Witness of `cpu_total_in_range`: the program's own start and the two
samples of the 30 % scenario. -/
theorem cpu_total_in_range_witness :
    0 ≤ (cpu_run Globals.init Stats.zero
          [(⟨1000, 500, 8500, 0⟩, 4), (⟨1100, 550, 8850, 0⟩, 4)]).2.cpu_total ∧
      (cpu_run Globals.init Stats.zero
          [(⟨1000, 500, 8500, 0⟩, 4), (⟨1100, 550, 8850, 0⟩, 4)]).2.cpu_total ≤ 100 :=
  cpu_total_in_range Globals.init Stats.zero (⟨1000, 500, 8500, 0⟩, 4)
    [(⟨1100, 550, 8850, 0⟩, 4)] rfl (by decide)
    (List.Chain.cons ⟨by decide, by decide⟩ List.Chain.nil)

theorem to_double_2_pow_31_times_100 :
    double_mul (double_div ((2147483648 : ℕ) : ℚ) ((1 : ℕ) : ℚ)) 100 = 214748364800 := by
  have h1 : to_double (2147483648 : ℚ) = 2147483648 := by
    exact_mod_cast to_double_natCast 2147483648 (by norm_num)
  have h2 : to_double (214748364800 : ℚ) = 214748364800 := by
    exact_mod_cast to_double_natCast 214748364800 (by norm_num)
  simp only [double_mul, double_div, Nat.cast_ofNat, Nat.cast_one, div_one, h1]
  norm_num
  exact h2

/-- C1 (as stated) fails.  Baseline `{user 1, system 0, idle 0, nice 0}`
and new sample `{user 2^31+1, system 0, idle 2^31+1, nice 0}` are in range and
non-decreasing in every bucket, the increases add up to `2^32 + 1`, which wraps
to a total delta of 1, and `cpu_total` becomes `2^31 * 100`.  In the run
`{user 1}`, `{user 2^31+1, idle 2^31}`, `{user 2^31+1, idle 2^31+1}` the
second call sees a total delta of `2^32`, which wraps to 0, and returns
without storing its sample; the third sample is one tick above the second,
but is compared with the first and `cpu_total` is again `2^31 * 100`. -/
theorem cpu_total_above_100 :
    ((⟨1, 0, 0, 0⟩ : CpuTicks).WF ∧ (⟨2147483649, 0, 2147483649, 0⟩ : CpuTicks).WF ∧
      (⟨1, 0, 0, 0⟩ : CpuTicks).le ⟨2147483649, 0, 2147483649, 0⟩ ∧
      (get_cpu_stats (Globals.withBaseline ⟨1, 0, 0, 0⟩) Stats.zero
          (some ⟨2147483649, 0, 2147483649, 0⟩) 4).2.cpu_total = 214748364800 ∧
      ¬ ((get_cpu_stats (Globals.withBaseline ⟨1, 0, 0, 0⟩) Stats.zero
          (some ⟨2147483649, 0, 2147483649, 0⟩) 4).2.cpu_total ≤ 100)) ∧
    ((⟨2147483649, 0, 2147483648, 0⟩ : CpuTicks).WF ∧
      (⟨2147483649, 0, 2147483649, 0⟩ : CpuTicks).WF ∧
      (⟨2147483649, 0, 2147483648, 0⟩ : CpuTicks).le ⟨2147483649, 0, 2147483649, 0⟩ ∧
      (⟨2147483649, 0, 2147483648, 0⟩ : CpuTicks).deltaSum ⟨2147483649, 0, 2147483649, 0⟩ = 1 ∧
      (cpu_run Globals.init Stats.zero
        [(⟨1, 0, 0, 0⟩, 4), (⟨2147483649, 0, 2147483648, 0⟩, 4),
         (⟨2147483649, 0, 2147483649, 0⟩, 4)]).2.cpu_total = 214748364800) := by
  have hval : ∀ stats : Stats, (get_cpu_stats (Globals.withBaseline ⟨1, 0, 0, 0⟩) stats
          (some ⟨2147483649, 0, 2147483649, 0⟩) 4).2.cpu_total = 214748364800 := by
    intro stats
    rw [get_cpu_stats_normal _ _ rfl (by decide)]
    have h1 : total_ticks ⟨1, 0, 0, 0⟩ = 1 := by decide
    have h2 : total_ticks ⟨2147483649, 0, 2147483649, 0⟩ = 2 := by decide
    have h3 : active_ticks ⟨2147483649, 0, 2147483649, 0⟩ ⟨1, 0, 0, 0⟩ = 2147483648 := by decide
    have h4 : sub32 2 1 = 1 := by decide
    have h5 : (Globals.withBaseline ⟨1, 0, 0, 0⟩).prev_cpu_ticks = ⟨1, 0, 0, 0⟩ := rfl
    simp only [h5, h1, h2, h3, h4]
    rw [if_pos (by decide)]
    exact to_double_2_pow_31_times_100
  have e1 : (get_cpu_stats Globals.init Stats.zero (some ⟨1, 0, 0, 0⟩) 4).1 =
      Globals.withBaseline ⟨1, 0, 0, 0⟩ := rfl
  have e2 : ∀ stats : Stats, (get_cpu_stats (Globals.withBaseline ⟨1, 0, 0, 0⟩) stats
      (some ⟨2147483649, 0, 2147483648, 0⟩) 4).1 = Globals.withBaseline ⟨1, 0, 0, 0⟩ :=
    fun stats => get_cpu_stats_zero_diff stats 4 rfl (by decide)
  refine ⟨⟨by decide, by decide, by decide, hval Stats.zero, ?_⟩,
    ⟨by decide, by decide, by decide, by decide, ?_⟩⟩
  · rw [hval Stats.zero]; norm_num
  · simp only [cpu_run]
    rw [e1, e2, hval]

/-- The two roundings of line 233 move the result away from the exact
quotient times 100 by at most a `2 ^ -51` fraction of it. -/
theorem percent_error (a d : Nat) :
    |double_mul (double_div (a : ℚ) (d : ℚ)) 100 - (a : ℚ) / (d : ℚ) * 100| ≤
      (a : ℚ) / (d : ℚ) * 100 / 2 ^ (51 : ℕ) := by
  have hy0 : (0 : ℚ) ≤ (a : ℚ) / (d : ℚ) := div_nonneg (Nat.cast_nonneg a) (Nat.cast_nonneg d)
  have h1 := to_double_error hy0
  have hr0 : 0 ≤ to_double ((a : ℚ) / (d : ℚ)) := to_double_nonneg hy0
  have hz0 : 0 ≤ to_double ((a : ℚ) / (d : ℚ)) * 100 := by linarith
  have h2 := to_double_error hz0
  simp only [double_mul, double_div]
  rw [abs_le] at h1 h2 ⊢
  norm_num at h1 h2 ⊢
  constructor <;> linarith

/-- C2 (as amended): on a call that is not the first, with no bucket
below the baseline, a sum of increases that is non-zero and below `2 ^ 32`,
and a baseline whose 32-bit tick total is non-zero, `cpu_total` is the
`double` value of `(Δuser + Δsystem + Δnice) / Δtotal * 100`: the quotient
rounded to `double`, times 100, rounded again.  It differs from the exact
value by at most a `2 ^ -51` fraction of it. -/
theorem cpu_total_formula (g : Globals) (stats : Stats) (cur : CpuTicks) (ncpu : Nat)
    (hfirst : g.first_cpu_measurement = false) (hc : cur.WF) (hle : g.prev_cpu_ticks.le cur)
    (hnz : g.prev_cpu_ticks.deltaSum cur ≠ 0)
    (hsum : g.prev_cpu_ticks.deltaSum cur < NATURAL_MOD)
    (hprev : total_ticks g.prev_cpu_ticks ≠ 0) :
    (get_cpu_stats g stats (some cur) ncpu).2.cpu_total =
        double_mul (double_div
          (((cur.user - g.prev_cpu_ticks.user) + (cur.system - g.prev_cpu_ticks.system)
            + (cur.nice - g.prev_cpu_ticks.nice) : ℕ) : ℚ)
          ((g.prev_cpu_ticks.deltaSum cur : ℕ) : ℚ)) 100 ∧
      |(get_cpu_stats g stats (some cur) ncpu).2.cpu_total -
          (((cur.user - g.prev_cpu_ticks.user) + (cur.system - g.prev_cpu_ticks.system)
            + (cur.nice - g.prev_cpu_ticks.nice) : ℕ) : ℚ)
          / ((g.prev_cpu_ticks.deltaSum cur : ℕ) : ℚ) * 100| ≤
        (((cur.user - g.prev_cpu_ticks.user) + (cur.system - g.prev_cpu_ticks.system)
            + (cur.nice - g.prev_cpu_ticks.nice) : ℕ) : ℚ)
          / ((g.prev_cpu_ticks.deltaSum cur : ℕ) : ℚ) * 100 / 2 ^ (51 : ℕ) := by
  have hdiff : sub32 (total_ticks cur) (total_ticks g.prev_cpu_ticks) ≠ 0 := by
    rw [total_diff_eq hle, Nat.mod_eq_of_lt hsum]; exact hnz
  have hact : (cur.user - g.prev_cpu_ticks.user) + (cur.system - g.prev_cpu_ticks.system)
      + (cur.nice - g.prev_cpu_ticks.nice) < NATURAL_MOD := by
    have : (cur.user - g.prev_cpu_ticks.user) + (cur.system - g.prev_cpu_ticks.system)
        + (cur.nice - g.prev_cpu_ticks.nice) ≤ g.prev_cpu_ticks.deltaSum cur := by
      simp only [CpuTicks.deltaSum]; omega
    omega
  have hval : (get_cpu_stats g stats (some cur) ncpu).2.cpu_total =
        double_mul (double_div
          (((cur.user - g.prev_cpu_ticks.user) + (cur.system - g.prev_cpu_ticks.system)
            + (cur.nice - g.prev_cpu_ticks.nice) : ℕ) : ℚ)
          ((g.prev_cpu_ticks.deltaSum cur : ℕ) : ℚ)) 100 := by
    rw [get_cpu_stats_normal stats ncpu hfirst hdiff, if_pos (Nat.pos_of_ne_zero hprev),
      total_diff_eq hle, active_ticks_eq hc hle, Nat.mod_eq_of_lt hsum, Nat.mod_eq_of_lt hact]
  refine ⟨hval, ?_⟩
  rw [hval]
  exact percent_error _ _

theorem double_percent_150_500 : double_mul (double_div 150 500) 100 = 30 := by
  have h1 : to_double (150 / 500 : ℚ) = 5404319552844595 / 18014398509481984 := by
    rw [to_double_eq_of (-2) 5404319552844595 (by norm_num) (by norm_num)
      (by rw [abs_lt]; constructor <;> norm_num)]
    norm_num
  simp only [double_mul, double_div, h1]
  rw [to_double_eq_of 4 8444249301319680 (by norm_num) (by norm_num)
      (by rw [abs_lt]; constructor <;> norm_num)]
  norm_num

theorem double_percent_1_3 :
    double_mul (double_div 1 3) 100 = 2345624805922133 / 70368744177664 := by
  have h1 : to_double (1 / 3 : ℚ) = 6004799503160661 / 18014398509481984 := by
    rw [to_double_eq_of (-2) 6004799503160661 (by norm_num) (by norm_num)
      (by rw [abs_lt]; constructor <;> norm_num)]
    norm_num
  simp only [double_mul, double_div, h1]
  rw [to_double_eq_of 5 4691249611844266 (by norm_num) (by norm_num)
      (by rw [abs_lt]; constructor <;> norm_num)]
  norm_num

/-- Witness of `cpu_total_formula`: baseline `{user 1000, system 500, nice 0,
idle 8500}` followed by `{user 1100, system 550, nice 0, idle 8850}` gives
exactly 30. -/
theorem cpu_total_formula_witness :
    (get_cpu_stats (Globals.withBaseline ⟨1000, 500, 8500, 0⟩) Stats.zero
      (some ⟨1100, 550, 8850, 0⟩) 4).2.cpu_total = 30 := by
  rw [(cpu_total_formula (Globals.withBaseline ⟨1000, 500, 8500, 0⟩) Stats.zero
    ⟨1100, 550, 8850, 0⟩ 4 rfl (by decide) (by decide) (by decide) (by decide) (by decide)).1]
  have h : (Globals.withBaseline ⟨1000, 500, 8500, 0⟩).prev_cpu_ticks = ⟨1000, 500, 8500, 0⟩ :=
    rfl
  simp only [h, CpuTicks.deltaSum]
  norm_num
  exact double_percent_150_500

/-- C2 (as stated) fails in three ways.  With the all-zero baseline and the
new sample `{user 100, system 0, idle 100, nice 0}` the guard
`total_prev > 0` is false and `cpu_total` is 0, not `100 / 200 * 100 = 50`.
With baseline `{user 1}` and new sample `{user 2^31+1, idle 2^31+1}` the sum
of the increases, `2^32 + 1`, wraps and `cpu_total` is `2^31 * 100`, not
`2^31 / (2^32 + 1) * 100`.  With baseline `{user 1}` and new sample
`{user 2, idle 2}` the two roundings give
`2345624805922133 / 70368744177664`, not `1 / 3 * 100`. -/
theorem cpu_total_formula_fails :
    ((Globals.withBaseline ⟨0, 0, 0, 0⟩).first_cpu_measurement = false ∧
      (⟨100, 0, 100, 0⟩ : CpuTicks).WF ∧
      (Globals.withBaseline ⟨0, 0, 0, 0⟩).prev_cpu_ticks.le ⟨100, 0, 100, 0⟩ ∧
      (Globals.withBaseline ⟨0, 0, 0, 0⟩).prev_cpu_ticks.deltaSum ⟨100, 0, 100, 0⟩ = 200 ∧
      (get_cpu_stats (Globals.withBaseline ⟨0, 0, 0, 0⟩) Stats.zero
        (some ⟨100, 0, 100, 0⟩) 4).2.cpu_total = 0 ∧
      (get_cpu_stats (Globals.withBaseline ⟨0, 0, 0, 0⟩) Stats.zero
        (some ⟨100, 0, 100, 0⟩) 4).2.cpu_total ≠ ((100 + 0 + 0 : ℕ) : ℚ) / ((200 : ℕ) : ℚ) * 100) ∧
    ((Globals.withBaseline ⟨1, 0, 0, 0⟩).first_cpu_measurement = false ∧
      (⟨2147483649, 0, 2147483649, 0⟩ : CpuTicks).WF ∧
      (Globals.withBaseline ⟨1, 0, 0, 0⟩).prev_cpu_ticks.le ⟨2147483649, 0, 2147483649, 0⟩ ∧
      (Globals.withBaseline ⟨1, 0, 0, 0⟩).prev_cpu_ticks.deltaSum
        ⟨2147483649, 0, 2147483649, 0⟩ = 4294967297 ∧
      (get_cpu_stats (Globals.withBaseline ⟨1, 0, 0, 0⟩) Stats.zero
        (some ⟨2147483649, 0, 2147483649, 0⟩) 4).2.cpu_total = 214748364800 ∧
      (get_cpu_stats (Globals.withBaseline ⟨1, 0, 0, 0⟩) Stats.zero
        (some ⟨2147483649, 0, 2147483649, 0⟩) 4).2.cpu_total ≠
          ((2147483648 + 0 + 0 : ℕ) : ℚ) / ((4294967297 : ℕ) : ℚ) * 100) ∧
    ((Globals.withBaseline ⟨1, 0, 0, 0⟩).first_cpu_measurement = false ∧
      (⟨2, 0, 2, 0⟩ : CpuTicks).WF ∧
      (Globals.withBaseline ⟨1, 0, 0, 0⟩).prev_cpu_ticks.le ⟨2, 0, 2, 0⟩ ∧
      (Globals.withBaseline ⟨1, 0, 0, 0⟩).prev_cpu_ticks.deltaSum ⟨2, 0, 2, 0⟩ = 3 ∧
      total_ticks (Globals.withBaseline ⟨1, 0, 0, 0⟩).prev_cpu_ticks = 1 ∧
      (get_cpu_stats (Globals.withBaseline ⟨1, 0, 0, 0⟩) Stats.zero
        (some ⟨2, 0, 2, 0⟩) 4).2.cpu_total = 2345624805922133 / 70368744177664 ∧
      (get_cpu_stats (Globals.withBaseline ⟨1, 0, 0, 0⟩) Stats.zero
        (some ⟨2, 0, 2, 0⟩) 4).2.cpu_total ≠ ((1 + 0 + 0 : ℕ) : ℚ) / ((3 : ℕ) : ℚ) * 100) := by
  have ha : (get_cpu_stats (Globals.withBaseline ⟨0, 0, 0, 0⟩) Stats.zero
        (some ⟨100, 0, 100, 0⟩) 4).2.cpu_total = 0 := by
    rw [get_cpu_stats_normal _ _ rfl (by decide)]
    have h5 : (Globals.withBaseline ⟨0, 0, 0, 0⟩).prev_cpu_ticks = ⟨0, 0, 0, 0⟩ := rfl
    have h1 : total_ticks ⟨0, 0, 0, 0⟩ = 0 := by decide
    simp only [h5, h1]
    rw [if_neg (by decide)]
  have hb : (get_cpu_stats (Globals.withBaseline ⟨1, 0, 0, 0⟩) Stats.zero
        (some ⟨2147483649, 0, 2147483649, 0⟩) 4).2.cpu_total = 214748364800 := by
    rw [get_cpu_stats_normal _ _ rfl (by decide)]
    have h1 : total_ticks ⟨1, 0, 0, 0⟩ = 1 := by decide
    have h2 : total_ticks ⟨2147483649, 0, 2147483649, 0⟩ = 2 := by decide
    have h3 : active_ticks ⟨2147483649, 0, 2147483649, 0⟩ ⟨1, 0, 0, 0⟩ = 2147483648 := by decide
    have h4 : sub32 2 1 = 1 := by decide
    have h5 : (Globals.withBaseline ⟨1, 0, 0, 0⟩).prev_cpu_ticks = ⟨1, 0, 0, 0⟩ := rfl
    simp only [h5, h1, h2, h3, h4]
    rw [if_pos (by decide)]
    exact to_double_2_pow_31_times_100
  have hc : (get_cpu_stats (Globals.withBaseline ⟨1, 0, 0, 0⟩) Stats.zero
        (some ⟨2, 0, 2, 0⟩) 4).2.cpu_total = 2345624805922133 / 70368744177664 := by
    rw [get_cpu_stats_normal _ _ rfl (by decide)]
    have h1 : total_ticks ⟨1, 0, 0, 0⟩ = 1 := by decide
    have h2 : total_ticks ⟨2, 0, 2, 0⟩ = 4 := by decide
    have h3 : active_ticks ⟨2, 0, 2, 0⟩ ⟨1, 0, 0, 0⟩ = 1 := by decide
    have h4 : sub32 4 1 = 3 := by decide
    have h5 : (Globals.withBaseline ⟨1, 0, 0, 0⟩).prev_cpu_ticks = ⟨1, 0, 0, 0⟩ := rfl
    simp only [h5, h1, h2, h3, h4]
    rw [if_pos (by decide)]
    simpa using double_percent_1_3
  refine ⟨⟨rfl, by decide, by decide, by decide, ha, ?_⟩,
    ⟨rfl, by decide, by decide, by decide, hb, ?_⟩,
    ⟨rfl, by decide, by decide, by decide, by decide, hc, ?_⟩⟩
  · rw [ha]; norm_num
  · rw [hb]; norm_num
  · rw [hc]; norm_num

/-! ## Baseline handling -/

theorem get_cpu_stats_updates_baseline (g : Globals) (stats : Stats) (cur : CpuTicks)
    (ncpu : Nat)
    (h : g.first_cpu_measurement = true ∨
      sub32 (total_ticks cur) (total_ticks g.prev_cpu_ticks) ≠ 0) :
    (get_cpu_stats g stats (some cur) ncpu).1.prev_cpu_ticks = cur := by
  unfold get_cpu_stats
  dsimp only
  split_ifs with h1 h2
  · rfl
  · rcases h with h | h
    · exact absurd h h1
    · exact absurd h2 h
  · rfl
  · rfl

/-- C8 (failing input): with baseline `{user 10, system 0, idle 10, nice 0}`
and new sample `{user 15, system 0, idle 5, nice 0}` both 32-bit totals are
20, the branch `total_diff == 0` returns early, and `prev_cpu_ticks` still
holds the old baseline instead of the sample just processed. -/
theorem zero_total_diff_keeps_old_baseline :
    (Globals.withBaseline ⟨10, 0, 10, 0⟩).first_cpu_measurement = false ∧
      (get_cpu_stats (Globals.withBaseline ⟨10, 0, 10, 0⟩) Stats.zero
        (some ⟨15, 0, 5, 0⟩) 4).1.prev_cpu_ticks = ⟨10, 0, 10, 0⟩ ∧
      (get_cpu_stats (Globals.withBaseline ⟨10, 0, 10, 0⟩) Stats.zero
        (some ⟨15, 0, 5, 0⟩) 4).1.prev_cpu_ticks ≠ ⟨15, 0, 5, 0⟩ := by
  have h : (get_cpu_stats (Globals.withBaseline ⟨10, 0, 10, 0⟩) Stats.zero
        (some ⟨15, 0, 5, 0⟩) 4).1.prev_cpu_ticks = ⟨10, 0, 10, 0⟩ := by
    rw [get_cpu_stats_zero_diff Stats.zero 4 rfl (by decide)]
    rfl
  refine ⟨rfl, h, ?_⟩
  rw [h]; decide

/-! ## First sample -/

theorem get_cpu_stats_first (g : Globals) (cpu_load : Option CpuTicks) (ncpu : Nat)
    (hfirst : g.first_cpu_measurement = true) :
    (get_cpu_stats g Stats.zero cpu_load ncpu).2.cpu_total = 0 ∧
      (get_cpu_stats g Stats.zero cpu_load ncpu).2.cpu_cores =
        List.replicate (get_cpu_stats g Stats.zero cpu_load ncpu).2.num_cores 0 := by
  cases cpu_load with
  | none => simp [get_cpu_stats, Stats.zero]
  | some cur => simp [get_cpu_stats, hfirst]

/-- C3: whatever the operating system answers to the first sampling call
(any tick sample, any core count, any process table, any earlier value of the
network counter), after lines 108-113 of `main` the stored `cpu_total` is 0,
every per-core percentage is 0, and the four rates computed from the stored
counters and the baselines just set are 0. -/
theorem startup_reports_zero (g : Globals) (w : World)
    (hfirst : g.first_cpu_measurement = true) :
    (main_startup g w).stats.cpu_total = 0 ∧
      (main_startup g w).stats.cpu_cores =
        List.replicate (main_startup g w).stats.num_cores 0 ∧
      (∀ c ∈ (main_startup g w).stats.cpu_cores, c = 0) ∧
      compute_rates (main_startup g w).g (main_startup g w).stats = ⟨0, 0, 0, 0⟩ := by
  obtain ⟨h1, h2⟩ := get_cpu_stats_first g w.cpu_load w.ncpu hfirst
  have e1 : (main_startup g w).stats.cpu_total =
      (get_cpu_stats g Stats.zero w.cpu_load w.ncpu).2.cpu_total := by
    cases hp : w.procs <;>
      simp [main_startup, get_system_stats, get_process_stats, get_network_stats,
        get_disk_stats, hp]
  have e2 : (main_startup g w).stats.cpu_cores =
      (get_cpu_stats g Stats.zero w.cpu_load w.ncpu).2.cpu_cores := by
    cases hp : w.procs <;>
      simp [main_startup, get_system_stats, get_process_stats, get_network_stats,
        get_disk_stats, hp]
  have e3 : (main_startup g w).stats.num_cores =
      (get_cpu_stats g Stats.zero w.cpu_load w.ncpu).2.num_cores := by
    cases hp : w.procs <;>
      simp [main_startup, get_system_stats, get_process_stats, get_network_stats,
        get_disk_stats, hp]
  have hcores : (main_startup g w).stats.cpu_cores =
      List.replicate (main_startup g w).stats.num_cores 0 := by
    rw [e2, e3]; exact h2
  refine ⟨by rw [e1]; exact h1, hcores, ?_, ?_⟩
  · intro c hc
    rw [hcores] at hc
    exact (List.mem_replicate.mp hc).2
  · simp [compute_rates, main_startup, update_prev, sub64_self]

/-- Witness of `startup_reports_zero`: the program's own static variables
and a first sample with large counters. -/
theorem startup_reports_zero_witness :
    (main_startup Globals.init
        ⟨some ⟨4294967295, 4000000000, 4294967295, 123456789⟩, 8, none⟩).stats.cpu_total = 0 ∧
      (main_startup Globals.init
        ⟨some ⟨4294967295, 4000000000, 4294967295, 123456789⟩, 8, none⟩).stats.cpu_cores =
        List.replicate (main_startup Globals.init
          ⟨some ⟨4294967295, 4000000000, 4294967295, 123456789⟩, 8, none⟩).stats.num_cores 0 ∧
      (∀ c ∈ (main_startup Globals.init
        ⟨some ⟨4294967295, 4000000000, 4294967295, 123456789⟩, 8, none⟩).stats.cpu_cores, c = 0) ∧
      compute_rates
        (main_startup Globals.init
          ⟨some ⟨4294967295, 4000000000, 4294967295, 123456789⟩, 8, none⟩).g
        (main_startup Globals.init
          ⟨some ⟨4294967295, 4000000000, 4294967295, 123456789⟩, 8, none⟩).stats
        = ⟨0, 0, 0, 0⟩ :=
  startup_reports_zero Globals.init
    ⟨some ⟨4294967295, 4000000000, 4294967295, 123456789⟩, 8, none⟩ rfl

/-! ## Counters that go down -/

theorem sub32_eq_wrapped_delta {a b : Nat} (ha : a < NATURAL_MOD) (hb : b < NATURAL_MOD) :
    sub32 a b = wrapped_delta NATURAL_MOD a b := by
  unfold wrapped_delta
  split_ifs with h
  · exact sub32_of_le h ha
  · exact sub32_of_lt (by omega) hb

theorem sub64_eq_wrapped_delta {a b : Nat} (ha : a < ULL_MOD) (hb : b < ULL_MOD) :
    sub64 a b = wrapped_delta ULL_MOD a b := by
  unfold wrapped_delta
  split_ifs with h
  · simp only [sub64, ULL_MOD] at *; omega
  · exact sub64_of_lt (by omega) hb

theorem sub64_wrapped {a b : Nat} (hab : a < b) (hb : b < ULL_MOD) :
    sub64 a b = ULL_MOD - (b - a) ∧ sub64 a b ≠ 0 := by
  rw [sub64_of_lt hab hb]
  exact ⟨rfl, by omega⟩

/-- C7 (as amended): no delta is replaced by 0 when a counter is below its
baseline; every delta is the unsigned difference as C computes it
(`wrapped_delta`: `current - baseline` when the counter did not go down,
`2 ^ w - (baseline - current)` when it did).  In the deriving branch of
`get_cpu_stats` (not the first call, 32-bit total delta not 0) `cpu_total` is
0 when the 32-bit total of the baseline is 0 and otherwise the `double` value
of `active / total_diff * 100`, `active` being the sum modulo `2 ^ 32` of the
wrapped user, system and nice deltas.  The four rates of `main` are the
wrapped differences: a rate whose counter is below its baseline is
`2 ^ 64 - (baseline - counter)`, which is not 0. -/
theorem counter_deltas_wrap (g : Globals) (stats : Stats) (cur : CpuTicks) (ncpu : Nat)
    (hc : cur.WF) (hp : g.prev_cpu_ticks.WF) (hs : stats.countersWF) (hg : g.countersWF) :
    (g.first_cpu_measurement = false →
      sub32 (total_ticks cur) (total_ticks g.prev_cpu_ticks) ≠ 0 →
      (get_cpu_stats g stats (some cur) ncpu).2.cpu_total =
        (if 0 < total_ticks g.prev_cpu_ticks then
          double_mul (double_div
            (((wrapped_delta NATURAL_MOD cur.user g.prev_cpu_ticks.user
              + wrapped_delta NATURAL_MOD cur.system g.prev_cpu_ticks.system
              + wrapped_delta NATURAL_MOD cur.nice g.prev_cpu_ticks.nice) % NATURAL_MOD : ℕ) : ℚ)
            ((sub32 (total_ticks cur) (total_ticks g.prev_cpu_ticks) : ℕ) : ℚ)) 100
        else 0)) ∧
    compute_rates g stats =
      ⟨wrapped_delta ULL_MOD stats.net_rx_bytes g.prev_net_rx,
       wrapped_delta ULL_MOD stats.net_tx_bytes g.prev_net_tx,
       wrapped_delta ULL_MOD stats.disk_reads g.prev_disk_reads,
       wrapped_delta ULL_MOD stats.disk_writes g.prev_disk_writes⟩ ∧
    (stats.net_rx_bytes < g.prev_net_rx →
      (compute_rates g stats).net_rx_rate = ULL_MOD - (g.prev_net_rx - stats.net_rx_bytes) ∧
      (compute_rates g stats).net_rx_rate ≠ 0) ∧
    (stats.net_tx_bytes < g.prev_net_tx →
      (compute_rates g stats).net_tx_rate = ULL_MOD - (g.prev_net_tx - stats.net_tx_bytes) ∧
      (compute_rates g stats).net_tx_rate ≠ 0) ∧
    (stats.disk_reads < g.prev_disk_reads →
      (compute_rates g stats).disk_read_rate = ULL_MOD - (g.prev_disk_reads - stats.disk_reads) ∧
      (compute_rates g stats).disk_read_rate ≠ 0) ∧
    (stats.disk_writes < g.prev_disk_writes →
      (compute_rates g stats).disk_write_rate =
        ULL_MOD - (g.prev_disk_writes - stats.disk_writes) ∧
      (compute_rates g stats).disk_write_rate ≠ 0) := by
  refine ⟨?_, ?_, fun h => sub64_wrapped h hg.1, fun h => sub64_wrapped h hg.2.1,
    fun h => sub64_wrapped h hg.2.2.1, fun h => sub64_wrapped h hg.2.2.2⟩
  · intro hfirst hdiff
    rw [get_cpu_stats_normal stats ncpu hfirst hdiff]
    have hact : active_ticks cur g.prev_cpu_ticks =
        (wrapped_delta NATURAL_MOD cur.user g.prev_cpu_ticks.user
          + wrapped_delta NATURAL_MOD cur.system g.prev_cpu_ticks.system
          + wrapped_delta NATURAL_MOD cur.nice g.prev_cpu_ticks.nice) % NATURAL_MOD := by
      rw [← sub32_eq_wrapped_delta hc.1 hp.1, ← sub32_eq_wrapped_delta hc.2.1 hp.2.1,
        ← sub32_eq_wrapped_delta hc.2.2.2 hp.2.2.2]
      simp only [active_ticks, add32, NATURAL_MOD]
      omega
    rw [hact]
  · simp only [compute_rates, sub64_eq_wrapped_delta hs.1 hg.1,
      sub64_eq_wrapped_delta hs.2.1 hg.2.1, sub64_eq_wrapped_delta hs.2.2.1 hg.2.2.1,
      sub64_eq_wrapped_delta hs.2.2.2 hg.2.2.2]

theorem double_percent_wrapped :
    double_mul (double_div 4294967291 95) 100 = 1185157795296741 / 262144 := by
  have h1 : to_double (4294967291 / 95 : ℚ) = 3034003955959657 / 67108864 := by
    rw [to_double_eq_of 25 6068007911919314 (by norm_num) (by norm_num)
      (by rw [abs_lt]; constructor <;> norm_num)]
    norm_num
  simp only [double_mul, double_div, h1]
  rw [to_double_eq_of 32 4740631181186964 (by norm_num) (by norm_num)
      (by rw [abs_lt]; constructor <;> norm_num)]
  norm_num

/-- Witness of `counter_deltas_wrap`: user ticks fall from 10 to 5 and the
received-bytes counter falls from 10 to 5. -/
theorem counter_deltas_wrap_witness :
    (get_cpu_stats ⟨10, 0, 0, 0, ⟨10, 0, 100, 0⟩, false, 1024⟩ ⟨0, [], 0, [], 5, 0, 0, 0⟩
        (some ⟨5, 0, 200, 0⟩) 4).2.cpu_total =
      double_mul (double_div ((4294967291 : ℕ) : ℚ) ((95 : ℕ) : ℚ)) 100 ∧
    (compute_rates ⟨10, 0, 0, 0, ⟨10, 0, 100, 0⟩, false, 1024⟩
        ⟨0, [], 0, [], 5, 0, 0, 0⟩).net_rx_rate = 18446744073709551611 := by
  obtain ⟨h1, _, h3, _⟩ := counter_deltas_wrap ⟨10, 0, 0, 0, ⟨10, 0, 100, 0⟩, false, 1024⟩
    ⟨0, [], 0, [], 5, 0, 0, 0⟩ ⟨5, 0, 200, 0⟩ 4 (by decide) (by decide) (by decide) (by decide)
  refine ⟨?_, (h3 (by decide)).1.trans (by decide)⟩
  rw [h1 rfl (by decide), if_pos (by decide)]
  have e1 : (wrapped_delta NATURAL_MOD 5 10 + wrapped_delta NATURAL_MOD 0 0
      + wrapped_delta NATURAL_MOD 0 0) % NATURAL_MOD = 4294967291 := by decide
  have e2 : sub32 (total_ticks ⟨5, 0, 200, 0⟩) (total_ticks ⟨10, 0, 100, 0⟩) = 95 := by decide
  simp only [e1, e2]

/-- C7 (as stated) fails: with baseline `{user 10, system 0, idle 100,
nice 0}` and new sample `{user 5, system 0, idle 200, nice 0}` the user delta
is `2^32 - 5`, not 0, and `cpu_total` is the `double` value of
`(2^32 - 5) / 95 * 100`, about 4.5e9 and far above 100; with a received-bytes
baseline of 10 and a counter of 5 the rate is `2^64 - 5`. -/
theorem decreasing_counter_wraps :
    (5 : Nat) < 10 ∧ sub32 5 10 = 4294967291 ∧
      active_ticks ⟨5, 0, 200, 0⟩ ⟨10, 0, 100, 0⟩ = 4294967291 ∧
      (get_cpu_stats (Globals.withBaseline ⟨10, 0, 100, 0⟩) Stats.zero
        (some ⟨5, 0, 200, 0⟩) 4).2.cpu_total = 1185157795296741 / 262144 ∧
      (100 : ℚ) < (get_cpu_stats (Globals.withBaseline ⟨10, 0, 100, 0⟩) Stats.zero
        (some ⟨5, 0, 200, 0⟩) 4).2.cpu_total ∧
      (compute_rates ⟨10, 0, 0, 0, ⟨0, 0, 0, 0⟩, false, 1024⟩
        ⟨0, [], 0, [], 5, 0, 0, 0⟩).net_rx_rate = 18446744073709551611 := by
  have h : (get_cpu_stats (Globals.withBaseline ⟨10, 0, 100, 0⟩) Stats.zero
        (some ⟨5, 0, 200, 0⟩) 4).2.cpu_total = 1185157795296741 / 262144 := by
    rw [get_cpu_stats_normal _ _ rfl (by decide)]
    have h5 : (Globals.withBaseline ⟨10, 0, 100, 0⟩).prev_cpu_ticks = ⟨10, 0, 100, 0⟩ := rfl
    have h1 : total_ticks ⟨10, 0, 100, 0⟩ = 110 := by decide
    have h2 : total_ticks ⟨5, 0, 200, 0⟩ = 205 := by decide
    have h3 : active_ticks ⟨5, 0, 200, 0⟩ ⟨10, 0, 100, 0⟩ = 4294967291 := by decide
    have h4 : sub32 205 110 = 95 := by decide
    simp only [h5, h1, h2, h3, h4]
    rw [if_pos (by decide)]
    simpa using double_percent_wrapped
  refine ⟨by decide, by decide, by decide, h, ?_, by decide⟩
  rw [h]; norm_num

/-! ## Scroll offset -/

theorem loop_body_max (s : MainState) (ch : Key) (w : World) :
    (loop_body s ch w).max_process_scroll =
      if (loop_body s ch w).stats.num_processes > 10
      then (loop_body s ch w).stats.num_processes - 10 else 0 := rfl

theorem loop_body_scroll (s : MainState) (ch : Key) (w : World) :
    (loop_body s ch w).process_scroll =
      if handle_key ch s.process_scroll s.max_process_scroll
          > (loop_body s ch w).max_process_scroll
      then (loop_body s ch w).max_process_scroll
      else handle_key ch s.process_scroll s.max_process_scroll := rfl

theorem loop_body_max_eq (s : MainState) (ch : Key) (w : World) :
    (loop_body s ch w).max_process_scroll =
      max 0 ((loop_body s ch w).stats.num_processes - 10) := by
  rw [loop_body_max]
  split_ifs with h
  · rw [max_eq_right (by omega)]
  · rw [max_eq_left (by omega)]

theorem handle_key_eq (ch : Key) (p m : Int) (h0 : 0 ≤ p) (h1 : p ≤ m) :
    handle_key ch p m = min (max (p + key_step ch) 0) m := by
  cases ch <;> simp only [handle_key, key_step] <;> (try split_ifs) <;> omega

theorem handle_key_nonneg (ch : Key) (p m : Int) (h0 : 0 ≤ p) (hm : 0 ≤ m) :
    0 ≤ handle_key ch p m := by
  cases ch <;> simp only [handle_key] <;> (try split_ifs) <;> omega

theorem loop_body_bounds (s : MainState) (ch : Key) (w : World)
    (h0 : 0 ≤ s.process_scroll) (hm : 0 ≤ s.max_process_scroll) :
    0 ≤ (loop_body s ch w).process_scroll ∧
      (loop_body s ch w).process_scroll ≤ (loop_body s ch w).max_process_scroll ∧
      0 ≤ (loop_body s ch w).max_process_scroll := by
  have hk := handle_key_nonneg ch s.process_scroll s.max_process_scroll h0 hm
  have hmax : 0 ≤ (loop_body s ch w).max_process_scroll := by
    rw [loop_body_max_eq]; exact le_max_left _ _
  rw [loop_body_scroll]
  split_ifs with h
  · exact ⟨hmax, le_refl _, hmax⟩
  · exact ⟨hk, by omega, hmax⟩

theorem loop_trace_bounds (inputs : List (Key × World)) :
    ∀ s : MainState, 0 ≤ s.process_scroll → 0 ≤ s.max_process_scroll →
      ∀ t ∈ loop_trace s inputs,
        0 ≤ t.process_scroll ∧ t.process_scroll ≤ max 0 (t.stats.num_processes - 10) := by
  induction inputs with
  | nil => intro s _ _ t ht; simp [loop_trace] at ht
  | cons x rest ih =>
    intro s h0 hm t ht
    obtain ⟨ch, w⟩ := x
    simp only [loop_trace] at ht
    split_ifs at ht with hq
    · simp at ht
    · obtain ⟨b0, b1, b2⟩ := loop_body_bounds s ch w h0 hm
      rcases List.mem_cons.mp ht with h | h
      · subst h
        exact ⟨b0, by rw [← loop_body_max_eq]; exact b1⟩
      · exact ih _ b0 b2 t h

/-- C5: started from the static variables `g` with any first answer `w0`
of the operating system, for every sequence of keys and answers, the state at
the end of every iteration of the main loop has
`0 <= process_scroll <= max(0, num_processes - 10)`, `num_processes` being
the count stored by that iteration. -/
theorem scroll_in_bounds (g : Globals) (w0 : World) (inputs : List (Key × World))
    (t : MainState) (ht : t ∈ loop_trace (main_startup g w0) inputs) :
    0 ≤ t.process_scroll ∧ t.process_scroll ≤ max 0 (t.stats.num_processes - 10) :=
  loop_trace_bounds inputs (main_startup g w0) (le_refl _) (le_refl _) t ht

/-- Witness of `scroll_in_bounds`: the state after two page-down keys on a
table of 12 processes. -/
theorem scroll_in_bounds_witness :
    0 ≤ (loop_body (loop_body (main_startup Globals.init ⟨none, 4, some table_12⟩)
          Key.KEY_NPAGE ⟨none, 4, some table_12⟩)
          Key.KEY_NPAGE ⟨none, 4, some table_12⟩).process_scroll ∧
      (loop_body (loop_body (main_startup Globals.init ⟨none, 4, some table_12⟩)
          Key.KEY_NPAGE ⟨none, 4, some table_12⟩)
          Key.KEY_NPAGE ⟨none, 4, some table_12⟩).process_scroll ≤
        max 0 ((loop_body (loop_body (main_startup Globals.init ⟨none, 4, some table_12⟩)
          Key.KEY_NPAGE ⟨none, 4, some table_12⟩)
          Key.KEY_NPAGE ⟨none, 4, some table_12⟩).stats.num_processes - 10) :=
  scroll_in_bounds Globals.init ⟨none, 4, some table_12⟩
    [(Key.KEY_NPAGE, ⟨none, 4, some table_12⟩), (Key.KEY_NPAGE, ⟨none, 4, some table_12⟩)] _
    (by simp [loop_trace])

/-- C6 (as amended): an iteration that starts with
`0 <= process_scroll <= max_process_scroll` and receives a key with step `d`
ends with `min(min(max(s + d, 0), max_process_scroll), max(0, n - 10))`: the
step is bounded by the `max_process_scroll` left by the previous iteration
(0 before the first) and the result by the bound of the new count `n`.  When
the old bound already equals `max(0, n - 10)` this is
`min(max(s + d, 0), max(0, n - 10))`. -/
theorem scroll_step (s : MainState) (ch : Key) (w : World)
    (h0 : 0 ≤ s.process_scroll) (h1 : s.process_scroll ≤ s.max_process_scroll) :
    (loop_body s ch w).process_scroll =
        min (min (max (s.process_scroll + key_step ch) 0) s.max_process_scroll)
          (max 0 ((loop_body s ch w).stats.num_processes - 10)) ∧
      (s.max_process_scroll = max 0 ((loop_body s ch w).stats.num_processes - 10) →
        (loop_body s ch w).process_scroll =
          min (max (s.process_scroll + key_step ch) 0)
            (max 0 ((loop_body s ch w).stats.num_processes - 10))) := by
  have hk := handle_key_eq ch s.process_scroll s.max_process_scroll h0 h1
  have hs : (loop_body s ch w).process_scroll =
        min (min (max (s.process_scroll + key_step ch) 0) s.max_process_scroll)
          (max 0 ((loop_body s ch w).stats.num_processes - 10)) := by
    rw [loop_body_scroll, loop_body_max_eq, hk]
    split_ifs with h
    · rw [min_eq_right (le_of_lt h)]
    · rw [min_eq_left (not_lt.mp h)]
  refine ⟨hs, fun hm => ?_⟩
  rw [hs, hm, min_assoc, min_self]

/-! ## The bubble sort -/

theorem swap_step_cons (p : ProcListEntry) (l : List ProcListEntry) (j : Nat) :
    swap_step (p :: l) (j + 1) = p :: swap_step l j := by
  unfold swap_step
  simp only [List.getElem?_cons_succ]
  cases h1 : l[j]? with
  | none => rfl
  | some x =>
    cases h2 : l[j + 1]? with
    | none => rfl
    | some y =>
      dsimp only
      split_ifs <;> simp [List.set_cons_succ]

theorem swap_step_head (x y : ProcListEntry) (rest : List ProcListEntry) :
    swap_step (x :: y :: rest) 0 =
      if x.cpu_percent < y.cpu_percent then y :: x :: rest else x :: y :: rest := by
  simp [swap_step]

theorem swap_step_append (pre : List ProcListEntry) (x y : ProcListEntry)
    (rest : List ProcListEntry) :
    swap_step (pre ++ x :: y :: rest) pre.length =
      pre ++ (if x.cpu_percent < y.cpu_percent then y :: x :: rest else x :: y :: rest) := by
  induction pre with
  | nil => simpa using swap_step_head x y rest
  | cons p pre ih =>
    simp only [List.cons_append, List.length_cons]
    rw [swap_step_cons, ih]

theorem swap_step_short (a : List ProcListEntry) (j : Nat) (h : a.length ≤ j + 1) :
    swap_step a j = a := by
  unfold swap_step
  have h2 : a[j + 1]? = none := List.getElem?_eq_none (by omega)
  rw [h2]
  cases a[j]? <;> rfl

theorem foldl_swap_short (n : Nat) :
    ∀ (j : Nat) (a : List ProcListEntry), a.length ≤ j + 1 →
      (List.range' j n).foldl (fun acc i => swap_step acc i) a = a := by
  induction n with
  | zero => intro j a _; rfl
  | succ n ih =>
    intro j a h
    rw [List.range'_succ, List.foldl_cons, swap_step_short a j h]
    exact ih (j + 1) a (by omega)

theorem foldl_swap_eq_bubbleN (n : Nat) :
    ∀ (pre : List ProcListEntry) (c : ProcListEntry) (rest : List ProcListEntry),
      (List.range' pre.length n).foldl (fun acc i => swap_step acc i) (pre ++ c :: rest) =
        pre ++ bubbleN n c rest := by
  induction n with
  | zero => intro pre c rest; rfl
  | succ n ih =>
    intro pre c rest
    rw [List.range'_succ, List.foldl_cons]
    cases rest with
    | nil =>
      rw [swap_step_short _ _ (by simp), foldl_swap_short n _ _ (by simp)]
      rfl
    | cons y r =>
      rw [swap_step_append]
      simp only [bubbleN]
      split_ifs with h
      · have := ih (pre ++ [y]) c r
        simp only [List.length_append, List.length_singleton, List.append_assoc,
          List.singleton_append] at this
        exact this
      · have := ih (pre ++ [c]) y r
        simp only [List.length_append, List.length_singleton, List.append_assoc,
          List.singleton_append] at this
        exact this

/-- The indexed inner loop with `n` comparisons on a non-empty array is
`bubbleN n`. -/
theorem inner_loop_eq_bubbleN (n : Nat) (c : ProcListEntry) (rest : List ProcListEntry) :
    forLoop n (fun j b => swap_step b j) (c :: rest) = bubbleN n c rest := by
  have := foldl_swap_eq_bubbleN n [] c rest
  simpa [forLoop, List.range_eq_range'] using this

theorem bubbleN_perm (n : Nat) :
    ∀ (c : ProcListEntry) (rest : List ProcListEntry), (bubbleN n c rest).Perm (c :: rest) := by
  induction n with
  | zero => intro c rest; exact List.Perm.refl _
  | succ n ih =>
    intro c rest
    cases rest with
    | nil => exact List.Perm.refl _
    | cons y r =>
      simp only [bubbleN]
      split_ifs with h
      · exact ((ih c r).cons y).trans (List.Perm.swap c y r)
      · exact (ih y r).cons c

theorem bubbleN_with_cpu (k : ℚ) (n : Nat) :
    ∀ (c : ProcListEntry) (rest : List ProcListEntry),
      with_cpu k (bubbleN n c rest) = with_cpu k (c :: rest) := by
  induction n with
  | zero => intro c rest; rfl
  | succ n ih =>
    intro c rest
    cases rest with
    | nil => rfl
    | cons y r =>
      simp only [bubbleN]
      split_ifs with h
      · have e := ih c r
        simp only [with_cpu, List.filter_cons] at e ⊢
        rw [e]
        by_cases hc : c.cpu_percent = k
        · have hy : ¬ y.cpu_percent = k := by
            intro hy; rw [hc, hy] at h; exact lt_irrefl _ h
          simp [hc, hy]
        · simp [hc]
      · have e := ih y r
        simp only [with_cpu, List.filter_cons] at e ⊢
        rw [e]

theorem bubbleN_append (n : Nat) :
    ∀ (c : ProcListEntry) (l1 l2 : List ProcListEntry), l1.length = n →
      bubbleN n c (l1 ++ l2) = bubbleN n c l1 ++ l2 := by
  induction n with
  | zero =>
    intro c l1 l2 h
    rw [List.length_eq_zero.mp h]; rfl
  | succ n ih =>
    intro c l1 l2 h
    cases l1 with
    | nil => simp at h
    | cons y r =>
      have hr : r.length = n := by simpa using h
      rw [List.cons_append]
      simp only [bubbleN]
      split_ifs with hlt
      · rw [ih c r l2 hr, List.cons_append]
      · rw [ih y r l2 hr, List.cons_append]

theorem bubbleN_last (n : Nat) :
    ∀ (c : ProcListEntry) (l : List ProcListEntry), l.length = n →
      ∃ (front : List ProcListEntry) (m : ProcListEntry), bubbleN n c l = front ++ [m] ∧
        m.cpu_percent ≤ c.cpu_percent ∧ ∀ x ∈ front, m.cpu_percent ≤ x.cpu_percent := by
  induction n with
  | zero =>
    intro c l h
    rw [List.length_eq_zero.mp h]
    exact ⟨[], c, rfl, le_refl _, by simp⟩
  | succ n ih =>
    intro c l h
    cases l with
    | nil => simp at h
    | cons y r =>
      have hr : r.length = n := by simpa using h
      simp only [bubbleN]
      split_ifs with hlt
      · obtain ⟨front, m, e, hm, hall⟩ := ih c r hr
        refine ⟨y :: front, m, by rw [e]; rfl, hm, ?_⟩
        intro x hx
        rcases List.mem_cons.mp hx with hx | hx
        · rw [hx]; exact le_of_lt (lt_of_le_of_lt hm hlt)
        · exact hall x hx
      · obtain ⟨front, m, e, hm, hall⟩ := ih y r hr
        have hyc : y.cpu_percent ≤ c.cpu_percent := not_lt.mp hlt
        refine ⟨c :: front, m, by rw [e]; rfl, le_trans hm hyc, ?_⟩
        intro x hx
        rcases List.mem_cons.mp hx with hx | hx
        · rw [hx]; exact le_trans hm hyc
        · exact hall x hx

theorem inner_loop_nil (n : Nat) :
    forLoop n (fun j b => swap_step b j) ([] : List ProcListEntry) = [] := by
  have := foldl_swap_short n 0 [] (by simp)
  simpa [forLoop, List.range_eq_range'] using this

theorem inner_loop_perm (n : Nat) (a : List ProcListEntry) :
    (forLoop n (fun j b => swap_step b j) a).Perm a := by
  cases a with
  | nil => rw [inner_loop_nil]
  | cons c rest => rw [inner_loop_eq_bubbleN]; exact bubbleN_perm n c rest

theorem inner_loop_with_cpu (k : ℚ) (n : Nat) (a : List ProcListEntry) :
    with_cpu k (forLoop n (fun j b => swap_step b j) a) = with_cpu k a := by
  cases a with
  | nil => rw [inner_loop_nil]
  | cons c rest => rw [inner_loop_eq_bubbleN]; exact bubbleN_with_cpu k n c rest

/-- Invariant of the outer loop: after `m` rounds the last `m` slots are in
non-increasing order and nothing before them is smaller than any of them. -/
theorem outer_loop_inv (a : List ProcListEntry) (m : Nat) (hm : m ≤ a.length - 1) :
    ∃ front back : List ProcListEntry,
      forLoop m (fun i b => forLoop (a.length - i - 1) (fun j d => swap_step d j) b) a
        = front ++ back ∧
      back.length = m ∧ back.Pairwise cpu_desc ∧
      (∀ x ∈ front, ∀ y ∈ back, y.cpu_percent ≤ x.cpu_percent) ∧
      (front ++ back).Perm a ∧ ∀ k, with_cpu k (front ++ back) = with_cpu k a := by
  induction m with
  | zero =>
    exact ⟨a, [], by simp [forLoop_zero], rfl, List.Pairwise.nil, by simp, by simp, by simp⟩
  | succ m ih =>
    obtain ⟨front, back, e, hlen, hsorted, hfb, hperm, hfilt⟩ := ih (by omega)
    have hA : (front ++ back).length = a.length := hperm.length_eq
    rw [List.length_append] at hA
    cases front with
    | nil => simp at hA; omega
    | cons c f =>
      have hf : f.length = a.length - m - 1 := by simp at hA; omega
      obtain ⟨front2, mn, e2, hmc, hall⟩ := bubbleN_last (a.length - m - 1) c f hf
      have hnew : forLoop (m + 1)
          (fun i b => forLoop (a.length - i - 1) (fun j d => swap_step d j) b) a
          = front2 ++ (mn :: back) := by
        rw [forLoop_succ, e, List.cons_append, inner_loop_eq_bubbleN,
          bubbleN_append _ c f back hf, e2]
        simp
      have hp2 : (front2 ++ [mn]).Perm (c :: f) := by
        rw [← e2]; exact bubbleN_perm _ c f
      have hmn_mem : mn ∈ c :: f := hp2.subset (by simp)
      have hfront2 : ∀ x ∈ front2, x ∈ c :: f := fun x hx => hp2.subset (by simp [hx])
      refine ⟨front2, mn :: back, hnew, by simp [hlen], ?_, ?_, ?_, ?_⟩
      · exact List.Pairwise.cons (fun y hy => hfb mn hmn_mem y hy) hsorted
      · intro x hx y hy
        rcases List.mem_cons.mp hy with hy | hy
        · rw [hy]; exact hall x hx
        · exact hfb x (hfront2 x hx) y hy
      · have : (front2 ++ mn :: back).Perm ((c :: f) ++ back) := by
          have := hp2.append_right back
          simpa using this
        exact this.trans hperm
      · intro k
        rw [← hfilt k]
        have e3 := bubbleN_with_cpu k (a.length - m - 1) c f
        rw [e2] at e3
        have : front2 ++ mn :: back = (front2 ++ [mn]) ++ back := by simp
        rw [this]
        simp only [with_cpu, List.filter_append] at e3 ⊢
        rw [e3]

theorem sort_pass_inv (a : List ProcListEntry) :
    (sort_pass a).Pairwise cpu_desc ∧ (sort_pass a).Perm a ∧
      ∀ k, with_cpu k (sort_pass a) = with_cpu k a := by
  obtain ⟨front, back, e, hlen, hsorted, hfb, hperm, hfilt⟩ :=
    outer_loop_inv a (a.length - 1) (le_refl _)
  have hs : sort_pass a = front ++ back := e
  rw [hs]
  refine ⟨?_, hperm, hfilt⟩
  have hA : (front ++ back).length = a.length := hperm.length_eq
  rw [List.length_append] at hA
  rw [List.pairwise_append]
  refine ⟨?_, hsorted, fun x hx y hy => hfb x hx y hy⟩
  have hfl : front.length ≤ 1 := by omega
  match front, hfl with
  | [], _ => exact List.Pairwise.nil
  | [x], _ => exact List.pairwise_singleton _ _

theorem sort_pass_sorted (a : List ProcListEntry) : (sort_pass a).Pairwise cpu_desc :=
  (sort_pass_inv a).1

theorem sort_pass_perm (a : List ProcListEntry) : (sort_pass a).Perm a :=
  (sort_pass_inv a).2.1

theorem sort_pass_with_cpu (k : ℚ) (a : List ProcListEntry) :
    with_cpu k (sort_pass a) = with_cpu k a :=
  (sort_pass_inv a).2.2 k

/-- Two lists in non-increasing order of `cpu_percent` with the same
elements and the same order among elements of equal `cpu_percent` are equal. -/
theorem stable_sorted_unique :
    ∀ l1 l2 : List ProcListEntry, l1.Pairwise cpu_desc → l2.Pairwise cpu_desc → l1.Perm l2 →
      (∀ k, with_cpu k l1 = with_cpu k l2) → l1 = l2 := by
  intro l1
  induction l1 with
  | nil => intro l2 _ _ hp _; exact hp.nil_eq
  | cons x t1 ih =>
    intro l2 h1 h2 hp hf
    cases l2 with
    | nil => exact absurd hp.length_eq (by simp)
    | cons y t2 =>
      rw [List.pairwise_cons] at h1 h2
      have hxy : x.cpu_percent ≤ y.cpu_percent := by
        have hx : x ∈ y :: t2 := hp.subset (by simp)
        rcases List.mem_cons.mp hx with h | h
        · rw [h]
        · exact h2.1 x h
      have hyx : y.cpu_percent ≤ x.cpu_percent := by
        have hy : y ∈ x :: t1 := hp.symm.subset (by simp)
        rcases List.mem_cons.mp hy with h | h
        · rw [h]
        · exact h1.1 y h
      have hk : y.cpu_percent = x.cpu_percent := le_antisymm hyx hxy
      have hfx := hf x.cpu_percent
      simp only [with_cpu, List.filter_cons, hk, decide_True, if_true] at hfx
      have hxy_eq : x = y := (List.cons.inj hfx).1
      subst hxy_eq
      have ht : t1 = t2 := by
        apply ih t2 h1.2 h2.2 (List.Perm.cons_inv hp)
        intro k
        have hfk := hf k
        simp only [with_cpu, List.filter_cons] at hfk ⊢
        by_cases hkx : x.cpu_percent = k
        · simp only [hkx, decide_True, if_true] at hfk
          exact (List.cons.inj hfk).2
        · simpa [hkx] using hfk
      rw [ht]

theorem orderedInsert_with_cpu (k : ℚ) (a : ProcListEntry) :
    ∀ l : List ProcListEntry,
      with_cpu k (l.orderedInsert cpu_desc a) = with_cpu k (a :: l) := by
  intro l
  induction l with
  | nil => rfl
  | cons b t ih =>
    simp only [List.orderedInsert]
    split_ifs with h
    · rfl
    · have hlt : a.cpu_percent < b.cpu_percent := not_le.mp h
      simp only [with_cpu, List.filter_cons] at ih ⊢
      rw [ih]
      by_cases ha : a.cpu_percent = k
      · have hb : ¬ b.cpu_percent = k := by
          intro hb; rw [ha, hb] at hlt; exact lt_irrefl _ hlt
        simp [ha, hb]
      · simp [ha]

theorem insertionSort_with_cpu (k : ℚ) :
    ∀ l : List ProcListEntry, with_cpu k (l.insertionSort cpu_desc) = with_cpu k l := by
  intro l
  induction l with
  | nil => rfl
  | cons a t ih =>
    rw [List.insertionSort, orderedInsert_with_cpu]
    simp only [with_cpu, List.filter_cons] at ih ⊢
    rw [ih]

/-- C4: for every content of `proc_list`, the bubble sort of
`get_process_stats` returns a permutation of it in non-increasing order of
`cpu_percent` in which, for every value `k`, the records with `cpu_percent = k`
appear in the order they had in the input; it equals the stable insertion
sort of the input by non-increasing `cpu_percent`. -/
theorem sort_pass_is_stable_sort (proc_list : List ProcListEntry) :
    (sort_pass proc_list).Perm proc_list ∧
      (sort_pass proc_list).Pairwise (fun a b => b.cpu_percent ≤ a.cpu_percent) ∧
      (∀ k : ℚ, (sort_pass proc_list).filter (fun e => decide (e.cpu_percent = k)) =
        proc_list.filter (fun e => decide (e.cpu_percent = k))) ∧
      sort_pass proc_list = proc_list.insertionSort cpu_desc := by
  refine ⟨sort_pass_perm proc_list, sort_pass_sorted proc_list,
    fun k => sort_pass_with_cpu k proc_list, ?_⟩
  apply stable_sorted_unique _ _ (sort_pass_sorted proc_list)
    (List.sorted_insertionSort cpu_desc proc_list)
    ((sort_pass_perm proc_list).trans (List.perm_insertionSort cpu_desc proc_list).symm)
  intro k
  rw [sort_pass_with_cpu, insertionSort_with_cpu]

/-! ## `get_process_stats` -/

theorem collect_procs_acc (table : List RawProc) :
    ∀ acc : List ProcListEntry, acc.length ≤ 256 →
      collect_procs table acc =
        acc ++ ((nonzero_pid table).map make_entry).take (256 - acc.length) := by
  induction table with
  | nil => intro acc _; simp [collect_procs, nonzero_pid]
  | cons p rest ih =>
    intro acc hacc
    simp only [collect_procs]
    split_ifs with hlt hpid
    · rw [ih acc hacc]
      simp [nonzero_pid, hpid]
    · rw [ih (acc ++ [make_entry p]) (by simp; omega)]
      have hk : 256 - acc.length = (256 - (acc ++ [make_entry p]).length) + 1 := by
        simp; omega
      rw [hk]
      simp [nonzero_pid, hpid]
    · have hz : 256 - acc.length = 0 := by omega
      rw [hz]; simp

theorem collect_procs_eq (table : List RawProc) :
    collect_procs table [] = ((nonzero_pid table).take 256).map make_entry := by
  rw [collect_procs_acc table [] (by simp)]
  simp [List.map_take]

theorem get_process_stats_eq (stats : Stats) (table : List RawProc) :
    (get_process_stats stats (some table)).processes =
      ((sort_pass (((nonzero_pid table).take 256).map make_entry)).take 20).map fill_entry := by
  simp only [get_process_stats, collect_procs_eq]
  generalize sort_pass (((nonzero_pid table).take 256).map make_entry) = sorted
  split_ifs with h
  · rw [List.take_of_length_le (le_refl sorted.length),
      List.take_of_length_le (le_of_lt h)]
  · rfl

theorem get_process_stats_length (stats : Stats) (table : List RawProc) :
    (get_process_stats stats (some table)).processes.length =
      min 20 (nonzero_pid table).length := by
  rw [get_process_stats_eq, List.length_map, List.length_take,
    (sort_pass_perm _).length_eq, List.length_map, List.length_take]
  omega

/-- The retained entries followed by the mapped remainder of the sorted
array are a permutation of the collected entries, and nothing in the
remainder has a larger `cpu_percent` than a retained entry. -/
theorem get_process_stats_top (stats : Stats) (table : List RawProc) :
    ∃ rest : List ProcessEntry,
      ((get_process_stats stats (some table)).processes ++ rest).Perm
        (((nonzero_pid table).take 256).map (fun p => fill_entry (make_entry p))) ∧
      ∀ r ∈ (get_process_stats stats (some table)).processes, ∀ x ∈ rest,
        x.cpu_percent ≤ r.cpu_percent := by
  refine ⟨((sort_pass (((nonzero_pid table).take 256).map make_entry)).drop 20).map fill_entry,
    ?_, ?_⟩
  · rw [get_process_stats_eq, ← List.map_append, List.take_append_drop]
    have := (sort_pass_perm (((nonzero_pid table).take 256).map make_entry)).map fill_entry
    simpa [List.map_map] using this
  · rw [get_process_stats_eq]
    intro r hr x hx
    obtain ⟨r0, hr0, rfl⟩ := List.mem_map.mp hr
    obtain ⟨x0, hx0, rfl⟩ := List.mem_map.mp hx
    have hs := sort_pass_sorted (((nonzero_pid table).take 256).map make_entry)
    rw [← List.take_append_drop 20 (sort_pass _), List.pairwise_append] at hs
    exact hs.2.2 r0 hr0 x0 hx0

/-- C9 (as amended): for a process table of any length, the number of
retained entries is `min(20, number of entries with non-zero pid)`, and they
are the top-ranked ones among the first 256 entries with non-zero pid: those
256 (or fewer) candidates are exactly the retained entries plus a remainder,
and no candidate in the remainder has a `cpu_percent` above that of a
retained entry. -/
theorem top_twenty_of_first_256 (stats : Stats) (table : List RawProc) :
    (get_process_stats stats (some table)).processes.length =
        min 20 (table.filter (fun p => decide (p.kp.p_pid ≠ 0))).length ∧
      ∃ rest : List ProcessEntry,
        ((get_process_stats stats (some table)).processes ++ rest).Perm
          (((table.filter (fun p => decide (p.kp.p_pid ≠ 0))).take 256).map
            (fun p => fill_entry (make_entry p))) ∧
        ∀ r ∈ (get_process_stats stats (some table)).processes, ∀ x ∈ rest,
          x.cpu_percent ≤ r.cpu_percent :=
  ⟨get_process_stats_length stats table, get_process_stats_top stats table⟩

theorem double_metric_5000000 :
    (make_entry ⟨⟨257, ['b', 'u', 's', 'y']⟩, some ⟨5000000, 0⟩⟩).cpu_percent = 5 := by
  have h1 : to_double (5000000 : ℚ) = 5000000 := by
    exact_mod_cast to_double_natCast 5000000 (by norm_num)
  have h2 : to_double (5 : ℚ) = 5 := by
    exact_mod_cast to_double_natCast 5 (by norm_num)
  simp only [make_entry, double_div, Nat.cast_ofNat, h1]
  norm_num
  exact h2

theorem nonzero_pid_table_257 : nonzero_pid table_257 = table_257 := by
  unfold nonzero_pid
  rw [List.filter_eq_self]
  intro p hp
  simp only [table_257, List.mem_append, List.mem_map, List.mem_range, List.mem_singleton] at hp
  rcases hp with ⟨i, _, rfl⟩ | rfl
  · simp; omega
  · decide

/-- C9 (as stated) fails: in `table_257` every entry has a non-zero pid,
the collecting loop stops after the first 256 of them, the 20 retained
entries all have `cpu_percent` 0, and the entry with pid 257, whose
`cpu_percent` is 5, is left out. -/
theorem busy_process_left_out :
    table_257.length = 257 ∧
      (∀ p ∈ table_257, p.kp.p_pid ≠ 0) ∧
      (get_process_stats Stats.zero (some table_257)).processes.length = 20 ∧
      (∀ r ∈ (get_process_stats Stats.zero (some table_257)).processes, r.cpu_percent = 0) ∧
      (⟨⟨257, ['b', 'u', 's', 'y']⟩, some ⟨5000000, 0⟩⟩ : RawProc) ∈ table_257 ∧
      (make_entry ⟨⟨257, ['b', 'u', 's', 'y']⟩, some ⟨5000000, 0⟩⟩).cpu_percent = 5 ∧
      (∀ r ∈ (get_process_stats Stats.zero (some table_257)).processes, r.pid ≠ 257) := by
  have hlen : table_257.length = 257 := by simp [table_257]
  have hmem : ∀ r ∈ (get_process_stats Stats.zero (some table_257)).processes,
      r.cpu_percent = 0 ∧ r.pid ≠ 257 := by
    obtain ⟨rest, hperm, _⟩ := get_process_stats_top Stats.zero table_257
    intro r hr
    have hr2 := hperm.subset (List.mem_append_left rest hr)
    rw [nonzero_pid_table_257] at hr2
    have htake : table_257.take 256 =
        (List.range 256).map (fun i => ⟨⟨(i : Int) + 1, ['i', 'd', 'l', 'e']⟩, some ⟨0, 0⟩⟩) := by
      unfold table_257
      rw [List.take_left']
      simp
    rw [htake] at hr2
    simp only [List.mem_map, List.mem_range] at hr2
    obtain ⟨p, ⟨i, hi, rfl⟩, rfl⟩ := hr2
    constructor
    · simp [fill_entry, make_entry, double_div, to_double_zero]
    · simp only [fill_entry, make_entry]; omega
  refine ⟨hlen, ?_, ?_, fun r hr => (hmem r hr).1, by simp [table_257], ?_,
    fun r hr => (hmem r hr).2⟩
  · intro p hp
    rw [← nonzero_pid_table_257] at hp
    simpa [nonzero_pid] using (List.mem_filter.mp hp).2
  · rw [get_process_stats_length, nonzero_pid_table_257, hlen]; rfl
  · exact double_metric_5000000

theorem double_metric_7000000 : double_div (to_double (7000000 : ℚ)) 1000000 = 7 := by
  have h1 : to_double (7000000 : ℚ) = 7000000 := by
    exact_mod_cast to_double_natCast 7000000 (by norm_num)
  have h2 : to_double (7 : ℚ) = 7 := by
    exact_mod_cast to_double_natCast 7 (by norm_num)
  simp only [double_div, h1]
  norm_num
  exact h2

theorem get_process_stats_small (stats : Stats) (table : List RawProc)
    (h : (nonzero_pid table).length ≤ 20) :
    (get_process_stats stats (some table)).processes.Perm
      ((nonzero_pid table).map (fun p => fill_entry (make_entry p))) := by
  have h256 : (nonzero_pid table).take 256 = nonzero_pid table :=
    List.take_of_length_le (by omega)
  have h20 : (sort_pass ((nonzero_pid table).map make_entry)).take 20 =
      sort_pass ((nonzero_pid table).map make_entry) :=
    List.take_of_length_le (by rw [(sort_pass_perm _).length_eq]; simpa using h)
  rw [get_process_stats_eq, h256, h20]
  have := (sort_pass_perm ((nonzero_pid table).map make_entry)).map fill_entry
  simpa [List.map_map] using this

/-- C10 (as amended): for every process table with at most 20 entries of
non-zero pid, whatever the number of failing resource queries, the ranking
has one entry for each table entry of non-zero pid (entries with pid 0 are
skipped): an entry whose query fails is present with `cpu_percent` 0 and
`mem_kb` 0, every other one with its own `cpu_percent` (the `double` value of
its user time divided by 1000000) and `mem_kb`. -/
theorem partial_failure_contained (stats : Stats) (table : List RawProc)
    (h : (table.filter (fun p => decide (p.kp.p_pid ≠ 0))).length ≤ 20) :
    (get_process_stats stats (some table)).processes.length =
        (table.filter (fun p => decide (p.kp.p_pid ≠ 0))).length ∧
      (get_process_stats stats (some table)).processes.Perm
        ((table.filter (fun p => decide (p.kp.p_pid ≠ 0))).map
          (fun p => fill_entry (make_entry p))) ∧
      (∀ p ∈ table, p.kp.p_pid ≠ 0 → p.pidinfo = none →
        (⟨p.kp.p_pid, p.kp.p_comm.take 255, 0, 0⟩ : ProcessEntry) ∈
          (get_process_stats stats (some table)).processes) ∧
      (∀ p ∈ table, p.kp.p_pid ≠ 0 → ∀ taskinfo, p.pidinfo = some taskinfo →
        (⟨p.kp.p_pid, p.kp.p_comm.take 255,
            double_div (to_double (taskinfo.pti_total_user : ℚ)) 1000000,
            taskinfo.pti_resident_size / 1024⟩ : ProcessEntry) ∈
          (get_process_stats stats (some table)).processes) := by
  have hperm := get_process_stats_small stats table h
  have hin : ∀ p ∈ table, p.kp.p_pid ≠ 0 →
      fill_entry (make_entry p) ∈ (get_process_stats stats (some table)).processes := by
    intro p hp hpid
    apply hperm.symm.subset
    exact List.mem_map.mpr ⟨p, List.mem_filter.mpr ⟨hp, by simpa using hpid⟩, rfl⟩
  refine ⟨?_, hperm, ?_, ?_⟩
  · rw [hperm.length_eq, List.length_map]; rfl
  · intro p hp hpid hnone
    have := hin p hp hpid
    simpa [fill_entry, make_entry, hnone] using this
  · intro p hp hpid taskinfo hsome
    have := hin p hp hpid
    simpa [fill_entry, make_entry, hsome] using this

/-- Witness of `partial_failure_contained`: `table_3`, whose second query
fails. -/
theorem partial_failure_contained_witness :
    (get_process_stats Stats.zero (some table_3)).processes.length = 3 ∧
      (⟨88, ['s', 'e', 'c', 'u', 'r', 'e', 'd'], 0, 0⟩ : ProcessEntry) ∈
        (get_process_stats Stats.zero (some table_3)).processes ∧
      (⟨500, ['z', 's', 'h'], 7, 10⟩ : ProcessEntry) ∈
        (get_process_stats Stats.zero (some table_3)).processes := by
  obtain ⟨hlen, _, hfail, hok⟩ := partial_failure_contained Stats.zero table_3 (by decide)
  refine ⟨by rw [hlen]; decide, ?_, ?_⟩
  · exact hfail ⟨⟨88, ['s', 'e', 'c', 'u', 'r', 'e', 'd']⟩, none⟩ (by simp [table_3])
      (by decide) rfl
  · have h := hok ⟨⟨500, ['z', 's', 'h']⟩, some ⟨7000000, 10240⟩⟩ (by simp [table_3])
      (by decide) ⟨7000000, 10240⟩ rfl
    simpa [double_metric_7000000] using h

/-- C10 (as stated) fails: `table_pid0` has two entries and exactly one
failing query (pid 1), but the entry with pid 0 is skipped and the ranking
has one entry. -/
theorem pid_zero_is_dropped :
    table_pid0.length = 2 ∧
      (table_pid0.filter (fun p => decide (p.pidinfo = none))).length = 1 ∧
      (get_process_stats Stats.zero (some table_pid0)).processes.length = 1 ∧
      (get_process_stats Stats.zero (some table_pid0)).processes.length ≠ table_pid0.length := by
  have h : (get_process_stats Stats.zero (some table_pid0)).processes.length = 1 := by
    rw [get_process_stats_length]; decide
  refine ⟨rfl, by decide, h, ?_⟩
  rw [h]; decide

/-! ## Scroll steps against the refreshed count -/

theorem get_system_stats_processes (g : Globals) (stats : Stats) (w : World)
    (table : List RawProc) (h : w.procs = some table) :
    (get_system_stats g stats w).2.processes =
      (get_process_stats stats (some table)).processes := by
  rw [get_process_stats_eq]
  simp only [get_system_stats, get_network_stats, get_disk_stats, h]
  exact get_process_stats_eq _ table

theorem loop_body_processes (s : MainState) (ch : Key) (w : World)
    (table : List RawProc) (h : w.procs = some table) :
    (loop_body s ch w).stats.processes =
      (get_process_stats s.stats (some table)).processes :=
  get_system_stats_processes s.g s.stats w table h

/-- Witness of `scroll_step`: 20 processes, offset 10 of at most 10, arrow
down, and a refresh that keeps the 20 processes: the offset stays 10. -/
theorem scroll_step_witness :
    (loop_body ⟨Globals.init, ⟨0, [], 0, List.replicate 20 ⟨1, [], 0, 0⟩, 0, 0, 0, 0⟩, 10, 10⟩
        Key.KEY_DOWN ⟨none, 4, none⟩).process_scroll = 10 := by
  have h := (scroll_step
    ⟨Globals.init, ⟨0, [], 0, List.replicate 20 ⟨1, [], 0, 0⟩, 0, 0, 0, 0⟩, 10, 10⟩
    Key.KEY_DOWN ⟨none, 4, none⟩ (by decide) (by decide)).1
  rw [h]
  decide

/-- C6 (as stated) fails at the first key press of a run: after startup
`process_scroll = 0` and `max_process_scroll = 0`; with `table_12` the
refreshed count is 12, so the claimed offset after arrow-down is
`min(max(0 + 1, 0), max(0, 12 - 10)) = 1`, but the step was taken against the
old bound 0 and the offset stays 0. -/
theorem first_key_down_does_not_move :
    (main_startup Globals.init ⟨some ⟨1000, 500, 8500, 0⟩, 4, some table_12⟩).process_scroll = 0 ∧
      (main_startup Globals.init
        ⟨some ⟨1000, 500, 8500, 0⟩, 4, some table_12⟩).max_process_scroll = 0 ∧
      (loop_body (main_startup Globals.init ⟨some ⟨1000, 500, 8500, 0⟩, 4, some table_12⟩)
        Key.KEY_DOWN ⟨some ⟨1100, 550, 8850, 0⟩, 4, some table_12⟩).stats.num_processes = 12 ∧
      (loop_body (main_startup Globals.init ⟨some ⟨1000, 500, 8500, 0⟩, 4, some table_12⟩)
        Key.KEY_DOWN ⟨some ⟨1100, 550, 8850, 0⟩, 4, some table_12⟩).process_scroll = 0 ∧
      (loop_body (main_startup Globals.init ⟨some ⟨1000, 500, 8500, 0⟩, 4, some table_12⟩)
        Key.KEY_DOWN ⟨some ⟨1100, 550, 8850, 0⟩, 4, some table_12⟩).process_scroll ≠
        min (max (0 + key_step Key.KEY_DOWN) 0) (max 0 (12 - 10)) := by
  have hn : (loop_body (main_startup Globals.init ⟨some ⟨1000, 500, 8500, 0⟩, 4, some table_12⟩)
      Key.KEY_DOWN ⟨some ⟨1100, 550, 8850, 0⟩, 4, some table_12⟩).stats.num_processes = 12 := by
    unfold Stats.num_processes
    rw [loop_body_processes _ _ _ table_12 rfl, get_process_stats_length]
    decide
  have hs : (loop_body (main_startup Globals.init ⟨some ⟨1000, 500, 8500, 0⟩, 4, some table_12⟩)
      Key.KEY_DOWN ⟨some ⟨1100, 550, 8850, 0⟩, 4, some table_12⟩).process_scroll = 0 := by
    rw [loop_body_scroll, loop_body_max, hn]
    rfl
  refine ⟨rfl, rfl, hn, hs, ?_⟩
  rw [hs]; decide

end Smon
